import Mathlib

/-!
# Verification of the aie-rt routing subsystem (`xaie_routing.c`)

This file is a shallow embedding of the routing subsystem of the aie-rt
driver (`src/driver/src/routing/xaie_routing.c`) together with theorems
settling the claims of the accompanying specification.

Modelling conventions:

* `u8`/`u64` bitmaps are `Nat` with explicit masking/wrapping where the C
  code truncates; bit tests `x & (1 << i)` become `Nat.testBit`, bit sets
  become `x ||| (1 <<< i)`, bit clears become `Nat.ldiff x (1 <<< i)`.
* `int` stream numbers are `Int` so the `-1` sentinel used by the C code is
  represented directly.  Bit operations guarded on negative streams are
  no-ops (the corresponding C expressions, e.g. `1 << -1`, are undefined;
  those paths are not exercised by any theorem below).
* The per-tile constraint table `CoreConstraintPerCore[col][row]` is a total
  function `Loc → CoreConstraint`; the C code allocates one record per grid
  cell and never stores a null pointer, so the null checks in the source are
  always satisfied.  Fields that are written but never read anywhere in the
  subsystem (`DirSupported`, `AllChannelsInUse`, `AllBDsareInUse`, the
  `s2mmChannelsInUse`/`mm2sChannelsInUse` scratch lists, which `XAie_MoveData`
  reallocates only on a local struct copy) are omitted from the record.
* Backend register calls (`XAie_StrmConnCctEnable`, `XAie_DmaWriteBd`,
  `XAie_DmaChannelEnable`, ...) are modelled as succeeding; the pending-BD
  poll in `XAie_MoveData` is modelled as completing.  The claims under
  study concern the in-memory resource accounting, not the register I/O.
* Linked lists (`XAie_ProgrammedRoutes`, `XAie_RoutingStep`) are `List`s.
  The first insertion into `routesDB` in the C code leaves the new node's
  `nextRoute` field uninitialized; it is modelled as the one-element list,
  which is the only reading under which the subsequent traversals are
  defined.
-/

namespace AieRouting

/-- Stream-switch port types, from the `StrmSwPortType` enum of `xaiegbl_defs.h`
(CORE = 0, DMA = 1, CTRL = 2, FIFO = 3, SOUTH = 4, WEST = 5, NORTH = 6,
EAST = 7, TRACE = 8); `_XAie_findShortestPath` hard-codes the numeric values
6/4/7/5 for NORTH/SOUTH/EAST/WEST. -/
inductive StrmSwPortType where
  | CORE
  | DMA
  | CTRL
  | FIFO
  | SOUTH
  | WEST
  | NORTH
  | EAST
  | TRACE
deriving DecidableEq

open StrmSwPortType

/-- `XAie_LocType`: a (column, row) tile coordinate.  Both fields are `u8`
in C; arithmetic that can wrap (the BFS neighbour computation) is wrapped
explicitly modulo 256. -/
structure Loc where
  Col : Nat
  Row : Nat
deriving DecidableEq

/-- `XAie_ChannelPortMapping`: one shim port/channel pair with its
availability flag. -/
structure ChannelPortMapping where
  channel : Nat
  port : Nat
  availability : Bool
deriving DecidableEq

/-- `XAie_RoutingStep`: one tile-local stream-switch connection recorded on
a programmed route. -/
structure RoutingStep where
  sourceTile : Loc
  sourceStream : Int
  destStream : Int
  source_direction : StrmSwPortType
  dest_direction : StrmSwPortType
deriving DecidableEq

/-- `XAie_RoutingPath`: a programmed route.  `MM2S_portNo`/`S2MM_portNo`
are `u8` in C and are initialized to `-1`, i.e. 255. -/
structure RoutingPath where
  source : Loc
  destination : Loc
  MM2S_portNo : Nat
  S2MM_portNo : Nat
  steps : List RoutingStep
deriving DecidableEq

/-- `XAie_CoreConstraint`: the per-tile resource record.  `tile_type`
follows the C `TileType` enum: 0 = XAIE_AIE_SHIM, 1 = XAIE_AIE_MEM,
2 = XAIE_AIE_CORE. -/
structure CoreConstraint where
  isAutoConfigured : Bool
  MM2S_State : Nat
  S2MM_State : Nat
  ShimMM2S_State : Nat
  ShimS2MM_State : Nat
  BDState : Nat
  tile_type : Nat
  SlaveEast : Nat
  SlaveWest : Nat
  SlaveSouth : Nat
  SlaveNorth : Nat
  MasterEast : Nat
  MasterWest : Nat
  MasterSouth : Nat
  MasterNorth : Nat
  Host2AIEPorts : List ChannelPortMapping
  AIE2HostPorts : List ChannelPortMapping
  routesDB : List RoutingPath
  isCoreExecuting : Bool
deriving DecidableEq

/-- `XAie_RoutingInstance`: grid dimensions plus the per-tile table. -/
structure RoutingInstance where
  NumRows : Nat
  NumCols : Nat
  tiles : Loc → CoreConstraint

/-- `XAie_RouteConstraints`: user blacklist/whitelist. -/
structure RouteConstraints where
  BlackListedCores : List Loc
  WhiteListedCores : List Loc
deriving DecidableEq

/-- Point update of the tile table (writing through the
`CoreConstraintPerCore[col][row]` pointer). -/
def setTile (ri : RoutingInstance) (t : Loc) (c : CoreConstraint) : RoutingInstance :=
  { ri with tiles := fun x => if x = t then c else ri.tiles x }

/-- `x |= (1 << i)` on a bitmap. -/
def setBit (x i : Nat) : Nat := x ||| (1 <<< i)

/-- `x &= ~(1 << i)` on a bitmap, written as `x ^^^ (x &&& (1 <<< i))`,
which clears exactly bit `i` of a natural number. -/
def clrBit (x i : Nat) : Nat := x ^^^ (x &&& (1 <<< i))

/-- Bit set with an `int` index; negative indices (never exercised by the
claims) leave the bitmap unchanged. -/
def setBitI (x : Nat) (i : Int) : Nat := if i < 0 then x else setBit x i.toNat

/-- Bit clear with an `int` index; negative indices (never exercised by the
claims) leave the bitmap unchanged. -/
def clrBitI (x : Nat) (i : Int) : Nat := if i < 0 then x else clrBit x i.toNat

/-- Truncation of an `int` to `u8` (two's complement). -/
def u8ofInt (i : Int) : Nat := (i.emod 256).toNat

/-- Truncation of an `int` to `u16` (two's complement). -/
def u16ofInt (i : Int) : Nat := (i.emod 65536).toNat

/-- `_XAie_isShimTile`. -/
def isShimTile (ri : RoutingInstance) (t : Loc) : Bool :=
  (ri.tiles t).tile_type == 0

/-- `_XAie_isMemTile`. -/
def isMemTile (ri : RoutingInstance) (t : Loc) : Bool :=
  (ri.tiles t).tile_type == 1

/-- `_XAie_isTileBlackListed`. -/
def isTileBlackListed (t : Loc) (rc : Option RouteConstraints) : Bool :=
  match rc with
  | none => false
  | some c => c.BlackListedCores.any fun b => b.Col == t.Col && b.Row == t.Row

/-- `_XAie_isTileWhitelisted`. -/
def isTileWhitelisted (t : Loc) (wl : List Loc) : Bool :=
  wl.any fun w => t.Col == w.Col && t.Row == w.Row

/-- `_XAie_updatePortAvailabilityForShimDmaToAie`: set/clear the
availability flag of the Host→AIE mapping entries whose `port` matches.
On non-shim tiles the C function returns `XAIE_ERR` without touching
state. -/
def updatePortAvailabilityForShimDmaToAie (ri : RoutingInstance) (t : Loc)
    (port : Int) (setOrUnset : Bool) : RoutingInstance :=
  if isShimTile ri t then
    let c := ri.tiles t
    let ports := c.Host2AIEPorts.map (fun m =>
      if (m.port : Int) == port then { m with availability := setOrUnset } else m)
    setTile ri t { c with Host2AIEPorts := ports }
  else ri

/-- `_XAie_updatePortAvailabilityForAieToShimDma`. -/
def updatePortAvailabilityForAieToShimDma (ri : RoutingInstance) (t : Loc)
    (port : Int) (setOrUnset : Bool) : RoutingInstance :=
  if isShimTile ri t then
    let c := ri.tiles t
    let ports := c.AIE2HostPorts.map (fun m =>
      if (m.port : Int) == port then { m with availability := setOrUnset } else m)
    setTile ri t { c with AIE2HostPorts := ports }
  else ri

/-- `findAvailableChannelIDforShimTile`: channel of the first mapping
entry whose port matches, 0 when none does. -/
def findAvailableChannelIDforShimTile (ri : RoutingInstance) (t : Loc)
    (port : Nat) (hostToAie : Bool) : Nat :=
  let c := ri.tiles t
  match (if hostToAie then c.Host2AIEPorts else c.AIE2HostPorts).find?
      (fun m => m.port == port) with
  | some m => m.channel
  | none => 0

/-- `_XAie_updatePortAvailabilityForStrmConn`: clear the slave-port bit in
the source direction and the master-port bit in the destination direction
(`DMA` hits the `MM2S_State`/`S2MM_State` channel bitmaps). -/
def updatePortAvailabilityForStrmConn (ri : RoutingInstance) (t : Loc)
    (portSource : StrmSwPortType) (sourceStream : Int)
    (portDest : StrmSwPortType) (destStream : Int) : RoutingInstance :=
  let c := ri.tiles t
  let c1 :=
    match portSource with
    | SOUTH => { c with SlaveSouth := clrBitI c.SlaveSouth sourceStream }
    | NORTH => { c with SlaveNorth := clrBitI c.SlaveNorth sourceStream }
    | EAST => { c with SlaveEast := clrBitI c.SlaveEast sourceStream }
    | WEST => { c with SlaveWest := clrBitI c.SlaveWest sourceStream }
    | DMA => { c with MM2S_State := clrBitI c.MM2S_State sourceStream }
    | _ => c
  let c2 :=
    match portDest with
    | SOUTH => { c1 with MasterSouth := clrBitI c1.MasterSouth destStream }
    | NORTH => { c1 with MasterNorth := clrBitI c1.MasterNorth destStream }
    | EAST => { c1 with MasterEast := clrBitI c1.MasterEast destStream }
    | WEST => { c1 with MasterWest := clrBitI c1.MasterWest destStream }
    | DMA => { c1 with S2MM_State := clrBitI c1.S2MM_State destStream }
    | _ => c1
  setTile ri t c2

/-- `_XAie_updatePortAvailabilityForStrmConnInverse`: set the same bits
back. -/
def updatePortAvailabilityForStrmConnInverse (ri : RoutingInstance) (t : Loc)
    (portSource : StrmSwPortType) (sourceStream : Int)
    (portDest : StrmSwPortType) (destStream : Int) : RoutingInstance :=
  let c := ri.tiles t
  let c1 :=
    match portSource with
    | SOUTH => { c with SlaveSouth := setBitI c.SlaveSouth sourceStream }
    | NORTH => { c with SlaveNorth := setBitI c.SlaveNorth sourceStream }
    | EAST => { c with SlaveEast := setBitI c.SlaveEast sourceStream }
    | WEST => { c with SlaveWest := setBitI c.SlaveWest sourceStream }
    | DMA => { c with MM2S_State := setBitI c.MM2S_State sourceStream }
    | _ => c
  let c2 :=
    match portDest with
    | SOUTH => { c1 with MasterSouth := setBitI c1.MasterSouth destStream }
    | NORTH => { c1 with MasterNorth := setBitI c1.MasterNorth destStream }
    | EAST => { c1 with MasterEast := setBitI c1.MasterEast destStream }
    | WEST => { c1 with MasterWest := setBitI c1.MasterWest destStream }
    | DMA => { c1 with S2MM_State := setBitI c1.S2MM_State destStream }
    | _ => c1
  setTile ri t c2

/-- First index `i < n` satisfying `p`, `-1` when none does (the
`for (i = 0; i < n; i++)` search pattern of the C code). -/
def scanFirst (p : Nat → Bool) (n : Nat) : Int :=
  match (List.range n).find? p with
  | some i => (i : Int)
  | none => -1

/-- `findFirstMatchingStreamForDestination`: lowest port index free in both
the source tile's master bitmap towards `sourceDirection` and the
destination tile's slave bitmap in the mirrored direction; `-1` when none.
Both local bitmap variables are initialized to `(u8)-1 = 0xFF` in the C
code, so the (unreachable by design) `DMA` case falls through to the scan
with both bitmaps full; only the `default` case returns `-1` early. -/
def findFirstMatchingStreamForDestination (ri : RoutingInstance)
    (sourceTile destinationTile : Loc) (sourceDirection : StrmSwPortType) : Int :=
  let cs := ri.tiles sourceTile
  let cd := ri.tiles destinationTile
  match sourceDirection with
  | NORTH => scanFirst (fun i => cs.MasterNorth.testBit i && cd.SlaveSouth.testBit i) 8
  | SOUTH => scanFirst (fun i => cs.MasterSouth.testBit i && cd.SlaveNorth.testBit i) 8
  | EAST => scanFirst (fun i => cs.MasterEast.testBit i && cd.SlaveWest.testBit i) 8
  | WEST => scanFirst (fun i => cs.MasterWest.testBit i && cd.SlaveEast.testBit i) 8
  | DMA => scanFirst (fun i => (255 : Nat).testBit i && (255 : Nat).testBit i) 8
  | _ => -1

/-- `_XAie_findFirstMatchingStream`: on shim tiles, first the shim
port-channel mappings are consulted (AIE→Host when `isEndTile`, Host→AIE
otherwise) and the first entry still marked available wins; otherwise the
lowest free bit of the slave bitmap selected by `direction` (`DMA` selects
`S2MM_State` for end tiles and `MM2S_State` for start tiles); `-1` when
nothing is free. -/
def findFirstMatchingStream (ri : RoutingInstance) (t : Loc)
    (direction : StrmSwPortType) (isEndTile : Bool) : Int :=
  let c := ri.tiles t
  let shimHit : Option Nat :=
    if isShimTile ri t then
      (if isEndTile then c.AIE2HostPorts.find? (fun m => m.availability)
       else c.Host2AIEPorts.find? (fun m => m.availability)).map (fun m => m.port)
    else none
  match shimHit with
  | some p => (p : Int)
  | none =>
    match direction with
    | NORTH => scanFirst (fun i => c.SlaveNorth.testBit i) 8
    | SOUTH => scanFirst (fun i => c.SlaveSouth.testBit i) 8
    | EAST => scanFirst (fun i => c.SlaveEast.testBit i) 8
    | WEST => scanFirst (fun i => c.SlaveWest.testBit i) 8
    | DMA =>
      if isEndTile then scanFirst (fun i => c.S2MM_State.testBit i) 8
      else scanFirst (fun i => c.MM2S_State.testBit i) 8
    | _ => -1

/-- `_XAie_resetBDAvailability`: mark a buffer descriptor free again — but
only when `bdID < 16` (`MAX_BUFFER_IDS` is hard-coded to 16 here, although
the allocator below hands out up to 48 ids on memory tiles). -/
def resetBDAvailability (ri : RoutingInstance) (t : Loc) (bdID : Nat) : RoutingInstance :=
  if bdID < 16 then
    let c := ri.tiles t
    setTile ri t { c with BDState := setBit c.BDState bdID }
  else ri

/-- `_XAie_findAvailableBufferID`: lowest set bit among bits 0..47 of
`BDState`; the bit is cleared (marked in use) and returned, `-1` when the
pool is empty. -/
def findAvailableBufferID (ri : RoutingInstance) (t : Loc) : Int × RoutingInstance :=
  let c := ri.tiles t
  match (List.range 48).find? (fun i => c.BDState.testBit i) with
  | some i => ((i : Int), setTile ri t { c with BDState := clrBit c.BDState i })
  | none => (-1, ri)

/-- `_XAie_isAdjTileValidForCurrTile`: the BFS edge check.  Note that the
C code tests the **slave** bitmap of the current tile and the **master**
bitmap of the adjacent tile for being non-zero (`bitmapA && bitmapB` on
`u8` values); it does not look for a common free index. -/
def isAdjTileValidForCurrTile (ri : RoutingInstance) (rc : Option RouteConstraints)
    (currentTile adjTile : Loc) (direction : StrmSwPortType)
    (visited : Loc → Bool) : Bool :=
  if adjTile.Col < ri.NumCols && adjTile.Row < ri.NumRows then
    let cc := ri.tiles currentTile
    let ac := ri.tiles adjTile
    let isPortAvailable :=
      match direction with
      | NORTH => cc.SlaveNorth != 0 && ac.MasterSouth != 0
      | SOUTH => cc.SlaveSouth != 0 && ac.MasterNorth != 0
      | EAST => cc.SlaveEast != 0 && ac.MasterWest != 0
      | WEST => cc.SlaveWest != 0 && ac.MasterEast != 0
      | _ => false
    !isTileBlackListed adjTile rc && !visited adjTile && isPortAvailable
  else false

/-! ## Path finder (`_XAie_findShortestPath`) -/

/-- The bounded FIFO of the C `Queue`: `_XAie_enqueue` silently drops the
item when the queue is full. -/
structure Queue where
  capacity : Nat
  elems : List Loc

/-- `_XAie_enqueue`. -/
def enqueue (q : Queue) (x : Loc) : Queue :=
  if q.elems.length == q.capacity then q else { q with elems := q.elems ++ [x] }

/-- `current.Col + dCol` / `current.Row + dRow` with the `u8` wrap of
`XAie_LocType`. -/
def locAdd (l : Loc) (dCol dRow : Int) : Loc :=
  ⟨(((l.Col : Int) + dCol).emod 256).toNat, (((l.Row : Int) + dRow).emod 256).toNat⟩

/-- The neighbour order of the BFS: `dRow[] = {1,-1,0,0}`,
`dCol[] = {0,0,1,-1}`, `StrmSwPort[] = {NORTH, SOUTH, EAST, WEST}`. -/
def bfsDirs : List (Int × Int × StrmSwPortType) :=
  [(1, 0, NORTH), (-1, 0, SOUTH), (0, 1, EAST), (0, -1, WEST)]

/-- The parent chain walked by both the whitelist check and the path
reconstruction: the list `[t, Pred t, Pred (Pred t), ...]` down to (and
excluding) `source`.  The C loops have no bound; the fuel below is a
modelling artifact and is always sufficient in the theorems (`none` on
exhaustion). -/
def predChain (pred : Loc → Loc) (source : Loc) : Loc → Nat → Option (List Loc)
  | t, fuel =>
    if t = source then some []
    else
      match fuel with
      | 0 => none
      | f + 1 => (predChain pred source (pred t) f).map (t :: ·)

/-- The whitelist check performed when the BFS first reaches the
destination: walk the parent chain from the discovered tile down to (and
excluding) the source and require every tile on it to be whitelisted —
only when constraints were supplied and the whitelist is non-empty. -/
def discoveryWhitelisted (rc : Option RouteConstraints) (pred : Loc → Loc)
    (source adj : Loc) (fuel : Nat) : Bool :=
  match rc with
  | none => true
  | some c =>
    if c.WhiteListedCores.isEmpty then true
    else
      match predChain pred source adj fuel with
      | some l => l.all fun t => isTileWhitelisted t c.WhiteListedCores
      | none => false

/-- The write `visited[adj] = 1` as a functional update. -/
def markV (v : Loc → Bool) (adj : Loc) : Loc → Bool :=
  fun x => if x = adj then true else v x

/-- The write `pred[adj] = cur` as a functional update. -/
def markP (p : Loc → Loc) (adj cur : Loc) : Loc → Loc :=
  fun x => if x = adj then cur else p x

/-- The inner `for (i = 0; i < 4; i++)` loop over the four neighbours of
the dequeued tile: each valid neighbour is marked visited, enqueued and
given a parent; when the neighbour is the destination and its parent
chain passes the whitelist check, `found` is set and the loop breaks. -/
def processNeighbors (ri : RoutingInstance) (rc : Option RouteConstraints)
    (source destination : Loc) (wfuel : Nat) (cur : Loc) :
    List (Int × Int × StrmSwPortType) → (Loc → Bool) → (Loc → Loc) → Queue →
    (Loc → Bool) × (Loc → Loc) × Queue × Bool
  | [], v, p, q => (v, p, q, false)
  | (dRow, dCol, port) :: rest, v, p, q =>
    let adj := locAdd cur dCol dRow
    if isAdjTileValidForCurrTile ri rc cur adj port v then
      let v' := markV v adj
      let q' := enqueue q adj
      let p' := markP p adj cur
      if adj = destination then
        if discoveryWhitelisted rc p' source adj wfuel then (v', p', q', true)
        else processNeighbors ri rc source destination wfuel cur rest v' p' q'
      else processNeighbors ri rc source destination wfuel cur rest v' p' q'
    else processNeighbors ri rc source destination wfuel cur rest v p q

/-- The `while (!isEmpty(queue) && !found)` loop.  The loop always
terminates (each iteration dequeues one tile and only unvisited tiles are
ever enqueued); the fuel is a modelling artifact, chosen large enough in
`findShortestPath` below, with `none` on exhaustion. -/
def bfsLoop (ri : RoutingInstance) (rc : Option RouteConstraints)
    (source destination : Loc) (wfuel : Nat) :
    Nat → Queue → (Loc → Bool) → (Loc → Loc) → Option (Loc → Loc)
  | 0, _, _, _ => none
  | fuel + 1, q, v, p =>
    match q.elems with
    | [] => none
    | cur :: restQ =>
      let q1 : Queue := { q with elems := restQ }
      let r := processNeighbors ri rc source destination wfuel cur bfsDirs v p q1
      if r.2.2.2 then some r.2.1
      else bfsLoop ri rc source destination wfuel fuel r.2.2.1 r.1 r.2.1

/-- `_XAie_findShortestPath`: `some path` on success (`path` empty when
source and destination coincide), `none` when no whitelist-compatible
path was discovered.  On success the path is rebuilt from the parent
pointers (destination back to source, then reversed, source included). -/
def findShortestPath (ri : RoutingInstance) (rc : Option RouteConstraints)
    (source destination : Loc) : Option (List Loc) :=
  if source = destination then some []
  else
    let cap := ri.NumRows * ri.NumCols
    let wfuel := cap + 2
    let q0 := enqueue ⟨cap, []⟩ source
    match bfsLoop ri rc source destination wfuel (2 * cap + 2) q0
        (fun _ => false) (fun _ => ⟨0, 0⟩) with
    | none => none
    | some pred =>
      (predChain pred source destination wfuel).map fun l => source :: l.reverse

/-! ## Path programmer (`_XAie_performRoutingOnPath`) -/

/-- Mark a tile `isAutoConfigured`. -/
def setAutoConfigured (ri : RoutingInstance) (t : Loc) : RoutingInstance :=
  setTile ri t { ri.tiles t with isAutoConfigured := true }

/-- The mutable cursor carried across the loop iterations of
`_XAie_performRoutingOnPath`: the instance under mutation, `lastDir`
(initialized `SOUTH`), `lastStream` (initialized `-1`), the
`MM2S_portNo`/`S2MM_portNo` fields of the route under construction
(initialized `(u8)-1 = 255`) and the accumulated step list. -/
structure ProgCursor where
  ri : RoutingInstance
  lastDir : StrmSwPortType
  lastStream : Int
  mm2s : Nat
  s2mm : Nat
  steps : List RoutingStep

/-- One intermediate iteration (`i < pathLength - 1`) of the programming
loop: determine the flow direction towards the next tile, pick the slave
stream (on the first hop from the DMA/shim mapping, afterwards — for
non-shim tiles — the lowest free bit of the slave bitmap in `lastDir`),
pick the master stream as the lowest index free on both sides of the
junction, reserve both on the current tile, record the step. `none`
signals the `sourceStream == -1 || destStream == -1` failure return. -/
def progIntermediate (cur next : Loc) (first : Bool)
    (st : ProgCursor) : Option ProgCursor :=
  let ri := st.ri
  let dirSource : StrmSwPortType :=
    if next.Col == cur.Col then (if next.Row > cur.Row then NORTH else SOUTH)
    else (if next.Col > cur.Col then EAST else WEST)
  let dirDest : StrmSwPortType :=
    if next.Col == cur.Col then (if next.Row > cur.Row then SOUTH else NORTH)
    else (if next.Col > cur.Col then WEST else EAST)
  let actualdirSource :=
    if isShimTile ri cur then st.lastDir else (if first then DMA else st.lastDir)
  let sourceStream :=
    if isShimTile ri cur then
      (if first then findFirstMatchingStream ri cur actualdirSource false
       else st.lastStream)
    else findFirstMatchingStream ri cur actualdirSource false
  let destStream := findFirstMatchingStreamForDestination ri cur next dirSource
  if sourceStream == -1 || destStream == -1 then none
  else
    let ri1 := setAutoConfigured ri cur
    let step : RoutingStep := ⟨cur, sourceStream, destStream, actualdirSource, dirSource⟩
    let mm2s' := if first then u8ofInt sourceStream else st.mm2s
    let ri2 := updatePortAvailabilityForStrmConn ri1 cur actualdirSource sourceStream
        dirSource destStream
    let ri3 :=
      if isShimTile ri2 cur && first then
        updatePortAvailabilityForShimDmaToAie ri2 cur sourceStream false
      else ri2
    some { ri := ri3, lastDir := dirDest, lastStream := destStream,
           mm2s := mm2s', s2mm := st.s2mm, steps := st.steps ++ [step] }

/-- The final iteration (`i == pathLength - 1`): connect the inbound
slave (`lastDir`/`lastStream`) to the local DMA master (`SOUTH` on shim
destinations), reserve, record the step, enable the AIE→shim port on shim
destinations, and insert the finished route at the head of the **source**
tile's `routesDB`.  `none` signals the `destStream == -1` failure
return. -/
def progLast (source destination : Loc) (last : Loc) (st : ProgCursor) :
    Option ProgCursor :=
  let ri := st.ri
  let dirLast : StrmSwPortType := if isShimTile ri last then SOUTH else DMA
  let destStream := findFirstMatchingStream ri last dirLast true
  if destStream == -1 then none
  else
    let ri1 := setAutoConfigured ri last
    let s2mm' := u8ofInt destStream
    let ri2 := updatePortAvailabilityForStrmConn ri1 last st.lastDir st.lastStream
        dirLast destStream
    let step : RoutingStep := ⟨last, st.lastStream, destStream, st.lastDir, dirLast⟩
    let steps' := st.steps ++ [step]
    let ri3 :=
      if isShimTile ri2 last then
        updatePortAvailabilityForAieToShimDma ri2 last destStream false
      else ri2
    let route : RoutingPath := ⟨source, destination, st.mm2s, s2mm', steps'⟩
    let sc := ri3.tiles source
    let ri4 := setTile ri3 source { sc with routesDB := route :: sc.routesDB }
    some { ri := ri4, lastDir := st.lastDir, lastStream := st.lastStream,
           mm2s := st.mm2s, s2mm := s2mm', steps := steps' }

/-- The `for (i = 0; i < pathLength; i++)` loop.  On failure the instance
mutated so far is returned together with `false` — the C code returns
`XAIE_ERR` mid-loop without releasing anything. -/
def progLoop (source destination : Loc) :
    List Loc → Bool → ProgCursor → RoutingInstance × Bool
  | [], _, st => (st.ri, true)
  | [last], _, st =>
    match progLast source destination last st with
    | none => (st.ri, false)
    | some st' => (st'.ri, true)
  | cur :: next :: rest, first, st =>
    match progIntermediate cur next first st with
    | none => (st.ri, false)
    | some st' => progLoop source destination (next :: rest) false st'

/-- `_XAie_performRoutingOnPath`. -/
def performRoutingOnPath (ri : RoutingInstance) (source destination : Loc)
    (path : List Loc) : RoutingInstance × Bool :=
  progLoop source destination path true
    { ri := ri, lastDir := SOUTH, lastStream := -1, mm2s := 255, s2mm := 255,
      steps := [] }

/-! ## Route catalog -/

/-- `_XAie_findRouteInRouteDB`. -/
def findRouteInRouteDB (db : List RoutingPath) (source destination : Loc) :
    Option RoutingPath :=
  db.find? fun r =>
    r.source.Col == source.Col && r.source.Row == source.Row &&
    r.destination.Col == destination.Col && r.destination.Row == destination.Row

/-- `_XAie_FreeRouteFromRoutesDB`: delete the first node matching the
pair. -/
def freeRouteFromRoutesDB : List RoutingPath → Loc → Loc → List RoutingPath
  | [], _, _ => []
  | r :: rest, s, d =>
    if r.source.Col == s.Col && r.source.Row == s.Row &&
        r.destination.Col == d.Col && r.destination.Row == d.Row then rest
    else r :: freeRouteFromRoutesDB rest s d

/-! ## Public calls -/

/-- Exit points of `XAie_Route` (the C function reports all failures as
`XAIE_ERR`; the constructors distinguish the return sites). -/
inductive RouteRC where
  | ok
  | dupRoute
  | noPath
  | programFail
deriving DecidableEq

/-- `XAie_SetCoreExecute`. -/
def XAie_SetCoreExecute (ri : RoutingInstance) (t : Loc) (isExecute : Bool) :
    RoutingInstance :=
  setTile ri t { ri.tiles t with isCoreExecuting := isExecute }

/-- `XAie_Route`: fail on an already-programmed pair, find a path, program
it (keeping whatever was mutated when programming fails mid-path), then
mark both non-shim non-memory endpoints as executing. -/
def XAie_Route (ri : RoutingInstance) (rc : Option RouteConstraints)
    (source destination : Loc) : RoutingInstance × RouteRC :=
  if (findRouteInRouteDB (ri.tiles source).routesDB source destination).isSome then
    (ri, RouteRC.dupRoute)
  else
    match findShortestPath ri rc source destination with
    | none => (ri, RouteRC.noPath)
    | some path =>
      match performRoutingOnPath ri source destination path with
      | (ri', false) => (ri', RouteRC.programFail)
      | (ri', true) =>
        let ri2 :=
          if !isShimTile ri' source && !isMemTile ri' source then
            XAie_SetCoreExecute ri' source true
          else ri'
        let ri3 :=
          if !isShimTile ri2 destination && !isMemTile ri2 destination then
            XAie_SetCoreExecute ri2 destination true
          else ri2
        (ri3, RouteRC.ok)

/-- Exit points of `XAie_DeRoute`. `errNullInstance` is the
`XAIE_INVALID_ARGS` return, `errNoRoute` covers both the empty-`routesDB`
early return and the pair-not-found case (in the latter the C code
dereferences the null `routingPath`; the model returns the error
instead). -/
inductive DeRouteRC where
  | ok
  | errNoRoute
deriving DecidableEq

/-- The per-step teardown loop of `XAie_DeRoute`: disable the connection
(modelled as succeeding), set the recorded slave/master bits back, and —
whenever the **route's source** is a shim tile — restore the availability
flag of the step's `sourceStream` in the Host→AIE mapping for the first
step and in the AIE→Host mapping for every later step (each applied at the
step's own tile, a no-op on non-shim tiles). -/
def derouteSteps (rp : RoutingPath) :
    List RoutingStep → Bool → RoutingInstance → RoutingInstance
  | [], _, ri => ri
  | st :: rest, first, ri =>
    let ri1 := updatePortAvailabilityForStrmConnInverse ri st.sourceTile
        st.source_direction st.sourceStream st.dest_direction st.destStream
    let ri2 :=
      if isShimTile ri1 rp.source then
        (if first then
          updatePortAvailabilityForShimDmaToAie ri1 st.sourceTile st.sourceStream true
         else
          updatePortAvailabilityForAieToShimDma ri1 st.sourceTile st.sourceStream true)
      else ri1
    derouteSteps rp rest false ri2

/-- `XAie_DeRoute`. -/
def XAie_DeRoute (ri : RoutingInstance) (source destination : Loc)
    (shouldModifyCoreConfig : Bool) : RoutingInstance × DeRouteRC :=
  if (ri.tiles source).routesDB.isEmpty then (ri, DeRouteRC.errNoRoute)
  else
    let ri1 :=
      if shouldModifyCoreConfig && !isShimTile ri source && !isMemTile ri source then
        XAie_SetCoreExecute ri source false
      else ri
    let ri2 :=
      if shouldModifyCoreConfig && !isShimTile ri1 destination &&
          !isMemTile ri1 destination then
        XAie_SetCoreExecute ri1 destination false
      else ri1
    match findRouteInRouteDB (ri2.tiles source).routesDB source destination with
    | none => (ri2, DeRouteRC.errNoRoute)
    | some rp =>
      let ri3 := derouteSteps rp rp.steps true ri2
      let sc := ri3.tiles source
      let ri4 := setTile ri3 source
        { sc with routesDB := freeRouteFromRoutesDB sc.routesDB source destination }
      (ri4, DeRouteRC.ok)

/-! ## Data mover (`XAie_MoveData`) -/

/-- Exit points of `XAie_MoveData` (all reported as `XAIE_ERR` by the C
code; the constructors distinguish the return sites / log messages). -/
inductive MoveRC where
  | ok
  | bdProgFail
  | noRoute
deriving DecidableEq

/-- `_XAie_programBufferDescriptors`: allocate (and mark in use) one BD at
the source and one at the destination.  `XAie_DmaWriteBd` on the `-1` id
produced by an exhausted pool fails, making the C function return
`XAIE_ERR` — with every BD allocated so far still marked in use.  Returns
the mutated instance, the two ids (as stored in the `u16` fields of
`XAie_BDs`) and the success flag. -/
def programBufferDescriptors (ri : RoutingInstance) (source destination : Loc) :
    RoutingInstance × Nat × Nat × Bool :=
  let r1 := findAvailableBufferID ri source
  if r1.1 == -1 then (r1.2, u16ofInt r1.1, 0, false)
  else
    let r2 := findAvailableBufferID r1.2 destination
    if r2.1 == -1 then (r2.2, u16ofInt r1.1, u16ofInt r2.1, false)
    else (r2.2, u16ofInt r1.1, u16ofInt r2.1, true)

/-- `XAie_MoveData`: program the two buffer descriptors **first**, then
look up the route (returning the no-programmed-route error when absent,
without releasing the BDs), resolve the channels (through the shim
port-channel mapping on shim endpoints), push and enable both channels,
poll the destination's pending count (modelled as completing), and only
then return both BDs to the pool. -/
def XAie_MoveData (ri : RoutingInstance) (source destination : Loc) :
    RoutingInstance × MoveRC :=
  let r := programBufferDescriptors ri source destination
  match r with
  | (ri1, srcBD, dstBD, okBD) =>
    if !okBD then (ri1, MoveRC.bdProgFail)
    else
      match findRouteInRouteDB (ri1.tiles source).routesDB source destination with
      | none => (ri1, MoveRC.noRoute)
      | some rp =>
        let _sourceChannelID :=
          if isShimTile ri1 source then
            findAvailableChannelIDforShimTile ri1 source rp.MM2S_portNo true
          else rp.MM2S_portNo
        let _destChannelID :=
          if isShimTile ri1 destination then
            findAvailableChannelIDforShimTile ri1 destination rp.S2MM_portNo false
          else rp.S2MM_portNo
        let ri2 := resetBDAvailability ri1 destination dstBD
        let ri3 := resetBDAvailability ri2 source srcBD
        (ri3, MoveRC.ok)

/-! ## Initialization (`XAie_InitRoutingHandler`) and `XAie_Run` -/

/-- The device parameters consumed by `XAie_InitRoutingHandler` from
`XAie_DevInst`. -/
structure DevInst where
  NumRows : Nat
  NumCols : Nat
  ShimRow : Nat
  MemTileRowStart : Nat
  MemTileNumRows : Nat
  AieTileRowStart : Nat
  AieTileNumRows : Nat

/-- The default Host→AIE shim port/channel mapping: ports 3 and 7 on
channels 0 and 1, both available. -/
def defaultHost2AIEPortChannelMapping : List ChannelPortMapping :=
  [⟨0, 3, true⟩, ⟨1, 7, true⟩]

/-- The default AIE→Host shim port/channel mapping: ports 2 and 3 on
channels 0 and 1, both available. -/
def defaultAIE2HostPortChannelMapping : List ChannelPortMapping :=
  [⟨0, 2, true⟩, ⟨1, 3, true⟩]

/-- Seed record for memory-tile rows. -/
def memTileConstraint : CoreConstraint :=
  { isAutoConfigured := false, MM2S_State := 0x3F, S2MM_State := 0x3F,
    ShimMM2S_State := 0x0, ShimS2MM_State := 0x0, BDState := 0xFFFFFFFFFFFF,
    tile_type := 1,
    SlaveEast := 0x0, SlaveWest := 0x0, SlaveSouth := 0x3F, SlaveNorth := 0xF,
    MasterEast := 0x0, MasterWest := 0x0, MasterSouth := 0xF, MasterNorth := 0x3F,
    Host2AIEPorts := [], AIE2HostPorts := [], routesDB := [],
    isCoreExecuting := false }

/-- Seed record for AIE (compute) tile rows. -/
def aieTileConstraint : CoreConstraint :=
  { isAutoConfigured := false, MM2S_State := 0x3, S2MM_State := 0x3,
    ShimMM2S_State := 0x0, ShimS2MM_State := 0x0, BDState := 0xFFFF,
    tile_type := 2,
    SlaveEast := 0xF, SlaveWest := 0xF, SlaveSouth := 0x3F, SlaveNorth := 0xF,
    MasterEast := 0xF, MasterWest := 0xF, MasterSouth := 0xF, MasterNorth := 0x3F,
    Host2AIEPorts := [], AIE2HostPorts := [], routesDB := [],
    isCoreExecuting := false }

/-- Seed record for shim rows, carrying the default port/channel
mappings. -/
def shimTileConstraint : CoreConstraint :=
  { isAutoConfigured := false, MM2S_State := 0x3, S2MM_State := 0x3,
    ShimMM2S_State := 0x3, ShimS2MM_State := 0x3, BDState := 0xFFFF,
    tile_type := 0,
    SlaveEast := 0xF, SlaveWest := 0xF, SlaveSouth := 0x0, SlaveNorth := 0xF,
    MasterEast := 0xF, MasterWest := 0xF, MasterSouth := 0x0, MasterNorth := 0x3F,
    Host2AIEPorts := defaultHost2AIEPortChannelMapping,
    AIE2HostPorts := defaultAIE2HostPortChannelMapping, routesDB := [],
    isCoreExecuting := false }

/-- Rows matched by none of the three classification branches are left
with their freshly-allocated (uninitialized) contents in C; the model
gives them a fixed record that no theorem relies on (`tile_type = 3` lies
outside the C `TileType` enum, so such a record is never mistaken for a
classified tile). -/
def uninitConstraint : CoreConstraint :=
  { isAutoConfigured := false, MM2S_State := 0, S2MM_State := 0,
    ShimMM2S_State := 0, ShimS2MM_State := 0, BDState := 0, tile_type := 3,
    SlaveEast := 0, SlaveWest := 0, SlaveSouth := 0, SlaveNorth := 0,
    MasterEast := 0, MasterWest := 0, MasterSouth := 0, MasterNorth := 0,
    Host2AIEPorts := [], AIE2HostPorts := [], routesDB := [],
    isCoreExecuting := false }

/-- `MemTileEnd = MemTileStart + MemTileNumRows - 1` when
`MemTileStart > 0`, else 0. -/
def memTileEnd (dev : DevInst) : Nat :=
  if dev.MemTileRowStart > 0 then dev.MemTileRowStart + dev.MemTileNumRows - 1 else 0

/-- Row classification of `XAie_InitRoutingHandler`:
`AieTileRowEnd = AieTileRowStart + AieTileNumRows` (compared inclusively,
as in the source), memory beats AIE beats shim in the branch order. -/
def initTileConstraint (dev : DevInst) (row : Nat) : CoreConstraint :=
  if (dev.MemTileRowStart ≤ row ∧ row ≤ memTileEnd dev) ∧ row ≠ dev.ShimRow then
    memTileConstraint
  else if dev.AieTileRowStart ≤ row ∧ row ≤ dev.AieTileRowStart + dev.AieTileNumRows then
    aieTileConstraint
  else if row = dev.ShimRow then shimTileConstraint
  else uninitConstraint

/-- `XAie_InitRoutingHandler`: build the per-tile table (the C code
allocates records only for the `NumCols × NumRows` grid; the total model
function maps out-of-grid coordinates to the uninitialized record). -/
def XAie_InitRoutingHandler (dev : DevInst) : RoutingInstance :=
  { NumRows := dev.NumRows, NumCols := dev.NumCols,
    tiles := fun l =>
      if l.Col < dev.NumCols && l.Row < dev.NumRows then initTileConstraint dev l.Row
      else uninitConstraint }

/-- `XAie_Run`: the multiset of `XAie_CoreEnable` calls issued — `count`
sweeps over the grid in column-major order, enabling every tile whose
`isCoreExecuting` flag is set. -/
def XAie_Run (ri : RoutingInstance) (count : Nat) : List Loc :=
  (List.range count).flatMap fun _ =>
    (List.range ri.NumCols).flatMap fun col =>
      (List.range ri.NumRows).filterMap fun row =>
        if (ri.tiles ⟨col, row⟩).isCoreExecuting then some ⟨col, row⟩ else none

/-! ## Specification-side notions

The definitions below express the properties claimed by the specification
(graph paths, distances, whitelist/blacklist membership on paths); they are
used to state and prove the theorems and do not model C code. -/

/-- The direction opposite a cardinal stream-switch direction. -/
def oppositeDir : StrmSwPortType → StrmSwPortType
  | NORTH => SOUTH
  | SOUTH => NORTH
  | EAST => WEST
  | WEST => EAST
  | d => d

/-- The slave bitmap of a tile record in a cardinal direction. -/
def slaveDirBitmap (c : CoreConstraint) : StrmSwPortType → Nat
  | NORTH => c.SlaveNorth
  | SOUTH => c.SlaveSouth
  | EAST => c.SlaveEast
  | WEST => c.SlaveWest
  | _ => 0

/-- The master bitmap of a tile record in a cardinal direction. -/
def masterDirBitmap (c : CoreConstraint) : StrmSwPortType → Nat
  | NORTH => c.MasterNorth
  | SOUTH => c.MasterSouth
  | EAST => c.MasterEast
  | WEST => c.MasterWest
  | _ => 0

/-- `v` is reachable from `u` through one of the listed BFS directions,
with the edge check evaluated on an all-false visited map — i.e. bounds,
blacklist and port availability only. -/
def edgeVia (ri : RoutingInstance) (rc : Option RouteConstraints)
    (dirs : List (Int × Int × StrmSwPortType)) (u v : Loc) : Bool :=
  dirs.any fun p =>
    decide (v = locAdd u p.2.1 p.1) &&
    isAdjTileValidForCurrTile ri rc u v p.2.2 (fun _ => false)

/-- The static edge relation explored by the BFS: `v` is one of the four
neighbours of `u` (in the BFS's own neighbour arithmetic) and the edge
check passes with an all-false visited map. -/
def edgeB (ri : RoutingInstance) (rc : Option RouteConstraints) (u v : Loc) : Bool :=
  edgeVia ri rc bfsDirs u v

/-- A path from `source` to `destination` in the BFS's edge relation:
non-empty, starts at `source`, ends at `destination`, consecutive tiles
joined by `edgeB`. -/
def IsPath (ri : RoutingInstance) (rc : Option RouteConstraints)
    (source destination : Loc) (p : List Loc) : Prop :=
  p.head? = some source ∧ p.getLast? = some destination ∧
  List.Chain' (fun u v => edgeB ri rc u v = true) p

/-- Boolean evaluator for chained edge checks, used only to decide
`IsPath` on concrete inputs. -/
def chainB (R : Loc → Loc → Bool) : List Loc → Bool
  | [] => true
  | _ :: [] => true
  | a :: b :: rest => R a b && chainB R (b :: rest)

instance (ri : RoutingInstance) (rc : Option RouteConstraints)
    (source destination : Loc) (p : List Loc) :
    Decidable (IsPath ri rc source destination p) :=
  decidable_of_iff
    (p.head? = some source ∧ p.getLast? = some destination ∧
      chainB (fun u v => edgeB ri rc u v) p = true)
    (by
      unfold IsPath
      refine and_congr Iff.rfl (and_congr Iff.rfl ?_)
      induction p with
      | nil => simp [chainB]
      | cons a rest ih =>
        cases rest with
        | nil => simp [chainB]
        | cons b rest2 =>
          rw [List.chain'_cons]
          rw [show chainB (fun u v => edgeB ri rc u v) (a :: b :: rest2) =
            (edgeB ri rc a b && chainB (fun u v => edgeB ri rc u v) (b :: rest2))
            from rfl]
          rw [Bool.and_eq_true]
          exact and_congr Iff.rfl ih)

/-- `stepsTo n v`: `v` is reachable from `source` by exactly `n` edges. -/
def stepsTo (ri : RoutingInstance) (rc : Option RouteConstraints) (source : Loc) :
    Nat → Loc → Prop
  | 0, v => v = source
  | n + 1, v => ∃ u, stepsTo ri rc source n u ∧ edgeB ri rc u v = true

/-- `IsDist v n`: `n` is the exact BFS distance of `v` from the source. -/
def IsDist (ri : RoutingInstance) (rc : Option RouteConstraints)
    (source : Loc) (v : Loc) (n : Nat) : Prop :=
  stepsTo ri rc source n v ∧ ∀ m, stepsTo ri rc source m v → n ≤ m

/-- The parent chain of `v` under a pred map, as a relation: `PChain pr
source v n` says following `pr` from `v` reaches `source` after exactly
`n` hops (`source` itself has chain length 0 regardless of `pr`). -/
inductive PChain (pr : Loc → Loc) (source : Loc) : Loc → Nat → Prop where
  | base : PChain pr source source 0
  | step : ∀ v n, v ≠ source → PChain pr source (pr v) n → PChain pr source v (n + 1)

/-- The in-bounds tiles of the grid, as a finset. -/
def gridFinset (ri : RoutingInstance) : Finset Loc :=
  ((Finset.range ri.NumCols) ×ˢ (Finset.range ri.NumRows)).map
    ⟨fun p => ⟨p.1, p.2⟩, fun a b h => by
      cases a; cases b; cases h; rfl⟩

/-- Number of in-bounds tiles not yet marked visited (the termination and
capacity measure of the BFS). -/
def unvisCount (ri : RoutingInstance) (v : Loc → Bool) : Nat :=
  ((gridFinset ri).filter fun t => v t = false).card

/-- The invariant maintained by the BFS loop of `_XAie_findShortestPath`
between iterations.  `k` is the BFS level of the queue's front region:
the queue splits into a level-`k` prefix and a level-`k+1` suffix (with
the re-enqueued source tolerated anywhere); every visited tile carries a
parent chain of length equal to its exact BFS distance; every visited or
source tile no longer in the queue is fully expanded; all tiles at
distance at most `k` are visited (or the source); and the queue length
plus the number of unvisited in-bounds tiles never exceeds the grid size
plus one, which both rules out the capacity drop of `_XAie_enqueue` and
bounds the number of remaining iterations. -/
structure BfsInv (ri : RoutingInstance) (rc : Option RouteConstraints)
    (src : Loc) (k : Nat) (q : Queue) (v : Loc → Bool) (pr : Loc → Loc) : Prop where
  qcap : q.capacity = ri.NumRows * ri.NumCols
  qlen : q.elems.length + unvisCount ri v ≤ ri.NumRows * ri.NumCols + 1
  qmem : ∀ x ∈ q.elems, v x = true ∨ x = src
  chain : ∀ x, v x = true → ∃ n, PChain pr src x n ∧ IsDist ri rc src x n
  parent : ∀ x, v x = true → x ≠ src →
    edgeB ri rc (pr x) x = true ∧ (v (pr x) = true ∨ pr x = src)
  inb : ∀ x, v x = true → x.Col < ri.NumCols ∧ x.Row < ri.NumRows
  srcExp : ∀ y, edgeB ri rc src y = true → v y = true ∨ y = src
  expand : ∀ x, (v x = true ∨ x = src) → x ∉ q.elems →
    ∀ y, edgeB ri rc x y = true → v y = true ∨ y = src
  levels : ∃ a b, q.elems = a ++ b ∧
    (∀ x ∈ a, IsDist ri rc src x k ∨ x = src) ∧
    (∀ x ∈ b, IsDist ri rc src x (k + 1) ∨ x = src)
  below : ∀ y m, IsDist ri rc src y m → m ≤ k → v y = true ∨ y = src

/-- What one run of the neighbour scan guarantees, for a dequeued tile
`cur` at BFS level `k`: visited marks only grow; parents of already
visited tiles are untouched; the queue keeps its capacity and only grows
by appended, freshly visited level-`k+1` tiles (or the re-enqueued
source); the queue-plus-unvisited measure never grows; the chain, parent
and bounds invariants are re-established; if the scan did not report the
destination, every neighbour of `cur` through the processed directions
is visited (or the source), and — when no whitelist filtering is active
— the destination's visited mark is unchanged; if it did report the
destination, the destination is visited and its parent chain passed the
whitelist check. -/
structure PNOut (ri : RoutingInstance) (rc : Option RouteConstraints)
    (src dst : Loc) (wfuel : Nat) (cur : Loc) (k : Nat)
    (dirs : List (Int × Int × StrmSwPortType))
    (v : Loc → Bool) (pr : Loc → Loc) (q : Queue)
    (r : (Loc → Bool) × (Loc → Loc) × Queue × Bool) : Prop where
  mono : ∀ x, v x = true → r.1 x = true
  stable : ∀ x, v x = true → r.2.1 x = pr x
  cap : r.2.2.1.capacity = q.capacity
  meas : r.2.2.1.elems.length + unvisCount ri r.1 ≤ q.elems.length + unvisCount ri v
  app : ∃ ap, r.2.2.1.elems = q.elems ++ ap ∧
    (∀ y ∈ ap, r.1 y = true ∧ (IsDist ri rc src y (k + 1) ∨ y = src)) ∧
    (∀ y, r.1 y = true → v y = true ∨ y ∈ ap)
  chain : ∀ x, r.1 x = true → ∃ n, PChain r.2.1 src x n ∧ IsDist ri rc src x n
  parent : ∀ x, r.1 x = true → x ≠ src →
    edgeB ri rc (r.2.1 x) x = true ∧ (r.1 (r.2.1 x) = true ∨ r.2.1 x = src)
  inb : ∀ x, r.1 x = true → x.Col < ri.NumCols ∧ x.Row < ri.NumRows
  expand : r.2.2.2 = false →
    ∀ y, edgeVia ri rc dirs cur y = true → r.1 y = true ∨ y = src
  found : r.2.2.2 = true → r.1 dst = true ∧
    discoveryWhitelisted rc r.2.1 src dst wfuel = true
  nodst : (∀ c, rc = some c → c.WhiteListedCores = []) → r.2.2.2 = false →
    r.1 dst = v dst

/-! ## Concrete instances used by counterexamples and witnesses -/

/-- 1 column × 2 rows: shim row 0, compute row 1. -/
def devA : DevInst := ⟨2, 1, 0, 0, 0, 1, 1⟩

/-- The freshly initialized 1×2 instance. -/
def riA : RoutingInstance := XAie_InitRoutingHandler devA

/-- Shim→compute route on the fresh 1×2 instance. -/
def rA : RoutingInstance × RouteRC := XAie_Route riA none ⟨0, 0⟩ ⟨0, 1⟩

/-- ... and its teardown. -/
def dA : RoutingInstance × DeRouteRC := XAie_DeRoute rA.1 ⟨0, 0⟩ ⟨0, 1⟩ false

/-- Compute→shim route on the fresh 1×2 instance. -/
def rAs : RoutingInstance × RouteRC := XAie_Route riA none ⟨0, 1⟩ ⟨0, 0⟩

/-- ... and its teardown. -/
def dAs : RoutingInstance × DeRouteRC := XAie_DeRoute rAs.1 ⟨0, 1⟩ ⟨0, 0⟩ false

/-- 2 columns × 3 rows: shim row 0, compute rows 1–2. -/
def devB : DevInst := ⟨3, 2, 0, 0, 0, 1, 2⟩

/-- The freshly initialized 2×3 instance. -/
def riB : RoutingInstance := XAie_InitRoutingHandler devB

/-- First route into (0,2): consumes its S2MM channel 0. -/
def sB1 : RoutingInstance × RouteRC := XAie_Route riB none ⟨0, 1⟩ ⟨0, 2⟩

/-- Second route into (0,2): consumes its S2MM channel 1. -/
def sB2 : RoutingInstance × RouteRC := XAie_Route sB1.1 none ⟨1, 1⟩ ⟨0, 2⟩

/-- Third route into (0,2): fails at the terminal tile (no S2MM channel
left) after reserving ports on (1,2). -/
def sB3 : RoutingInstance × RouteRC := XAie_Route sB2.1 none ⟨1, 2⟩ ⟨0, 2⟩

/-- 2 columns × 4 rows: shim row 0, compute rows 1–3. -/
def devC : DevInst := ⟨4, 2, 0, 0, 0, 1, 3⟩

/-- The freshly initialized 2×4 instance. -/
def riC : RoutingInstance := XAie_InitRoutingHandler devC

/-- Call 1 of the C3 scenario: route (0,1)→(0,2). -/
def tC1 : RoutingInstance × RouteRC := XAie_Route riC none ⟨0, 1⟩ ⟨0, 2⟩

/-- Call 2: route (1,1)→(0,2), via (1,2). -/
def tC2 : RoutingInstance × RouteRC := XAie_Route tC1.1 none ⟨1, 1⟩ ⟨0, 2⟩

/-- Call 3: route (1,2)→(0,2) fails at the terminal tile, leaking the
cleared (1,2).MasterWest bit 1 while (0,2).SlaveEast bit 1 stays free. -/
def tC3 : RoutingInstance × RouteRC := XAie_Route tC2.1 none ⟨1, 2⟩ ⟨0, 2⟩

/-- Call 4: tear down the (0,1)→(0,2) route, freeing an S2MM channel at
(0,2). -/
def tC4 : RoutingInstance × DeRouteRC := XAie_DeRoute tC3.1 ⟨0, 1⟩ ⟨0, 2⟩ false

/-- Constraints blacklisting (1,1), forcing the final route through the
skewed (1,2)→(0,2) junction. -/
def blC : RouteConstraints := ⟨[⟨1, 1⟩], []⟩

/-- Call 5: route (1,2)→(0,1) via (0,2) succeeds and records a slave
stream at (0,2) different from the master stream bound at (1,2). -/
def tC5 : RoutingInstance × RouteRC := XAie_Route tC4.1 (some blC) ⟨1, 2⟩ ⟨0, 1⟩

/-- 1 column × 3 rows: shim row 0, memory-tile row 1, compute row 2. -/
def devD : DevInst := ⟨3, 1, 0, 1, 1, 2, 1⟩

/-- The freshly initialized 1×3 instance. -/
def riD : RoutingInstance := XAie_InitRoutingHandler devD

/-- Route from the compute tile (0,2) down to the memory tile (0,1). -/
def rD : RoutingInstance × RouteRC := XAie_Route riD none ⟨0, 2⟩ ⟨0, 1⟩

/-- The routed 1×3 instance with the memory tile's BD pool reduced to
bits 16–31 (bits 0–15 all in use, as produced by sixteen BD leaks of the
kind exhibited for claim C6). -/
def riD7 : RoutingInstance :=
  setTile rD.1 ⟨0, 1⟩ { rD.1.tiles ⟨0, 1⟩ with BDState := 0xFFFF0000 }

/-- `XAie_MoveData` along the programmed route of `riD7`. -/
def mD7 : RoutingInstance × MoveRC := XAie_MoveData riD7 ⟨0, 2⟩ ⟨0, 1⟩

/-- `XAie_MoveData` on the fresh 1×2 instance, where no route is
programmed. -/
def mA6 : RoutingInstance × MoveRC := XAie_MoveData riA ⟨0, 1⟩ ⟨0, 0⟩

/-- 3 columns × 3 rows: shim row 0, compute rows 1–2. -/
def devE : DevInst := ⟨3, 3, 0, 0, 0, 1, 2⟩

/-- The freshly initialized 3×3 instance. -/
def riE : RoutingInstance := XAie_InitRoutingHandler devE

/-- Whitelist covering the row-2 detour from (0,1) to (2,1), endpoints
included — but not the direct row-1 path. -/
def wlE1 : RouteConstraints := ⟨[], [⟨0, 1⟩, ⟨0, 2⟩, ⟨1, 2⟩, ⟨2, 2⟩, ⟨2, 1⟩]⟩

/-- The detour path itself. -/
def detourE : List Loc := [⟨0, 1⟩, ⟨0, 2⟩, ⟨1, 2⟩, ⟨2, 2⟩, ⟨2, 1⟩]

/-- Whitelist containing only the destination (1,1). -/
def wlE2 : RouteConstraints := ⟨[], [⟨1, 1⟩]⟩

/-- Blacklist containing only the source (0,1). -/
def blE3 : RouteConstraints := ⟨[⟨0, 1⟩], []⟩

/-- 2 columns × 2 rows: shim row 0, compute row 1. -/
def devF : DevInst := ⟨2, 2, 0, 0, 0, 1, 1⟩

/-- The freshly initialized 2×2 instance. -/
def riF : RoutingInstance := XAie_InitRoutingHandler devF

/-- A successful compute→compute route (0,1)→(1,1) on the 2×2 grid. -/
def rF : RoutingInstance × RouteRC := XAie_Route riF none ⟨0, 1⟩ ⟨1, 1⟩

/-- Current tile of the C5 counterexample: a free master port toward
NORTH (bit 0) but an empty SlaveNorth bitmap. -/
def cexC5cur : CoreConstraint :=
  { uninitConstraint with MasterNorth := 1, SlaveNorth := 0 }

/-- Adjacent tile of the C5 counterexample: free SlaveSouth and
MasterSouth bits. -/
def cexC5adj : CoreConstraint :=
  { uninitConstraint with SlaveSouth := 1, MasterSouth := 1 }

/-- A 1×2 instance exhibiting the C5 counterexample tiles. -/
def riC5 : RoutingInstance :=
  ⟨2, 1, fun l =>
    if l = ⟨0, 0⟩ then cexC5cur
    else if l = ⟨0, 1⟩ then cexC5adj
    else uninitConstraint⟩

/-! ## Helper lemmas -/

theorem tiles_setTile (ri : RoutingInstance) (t : Loc) (c : CoreConstraint) (x : Loc) :
    (setTile ri t c).tiles x = if x = t then c else ri.tiles x := rfl

theorem setCoreExecute_tiles (ri : RoutingInstance) (t : Loc) (b : Bool) (x : Loc) :
    (XAie_SetCoreExecute ri t b).tiles x =
      if x = t then { ri.tiles t with isCoreExecuting := b } else ri.tiles x := rfl

theorem tileType_setCoreExecute (ri : RoutingInstance) (t : Loc) (b : Bool) (x : Loc) :
    ((XAie_SetCoreExecute ri t b).tiles x).tile_type = (ri.tiles x).tile_type := by
  rw [setCoreExecute_tiles]
  by_cases h : x = t
  · subst h; rw [if_pos rfl]
  · rw [if_neg h]

theorem routesDB_setCoreExecute (ri : RoutingInstance) (t : Loc) (b : Bool) (x : Loc) :
    ((XAie_SetCoreExecute ri t b).tiles x).routesDB = (ri.tiles x).routesDB := by
  rw [setCoreExecute_tiles]
  by_cases h : x = t
  · subst h; rw [if_pos rfl]
  · rw [if_neg h]

theorem bdState_setCoreExecute (ri : RoutingInstance) (t : Loc) (b : Bool) (x : Loc) :
    ((XAie_SetCoreExecute ri t b).tiles x).BDState = (ri.tiles x).BDState := by
  rw [setCoreExecute_tiles]
  by_cases h : x = t
  · subst h; rw [if_pos rfl]
  · rw [if_neg h]

theorem isCoreExecuting_setCoreExecute (ri : RoutingInstance) (t : Loc) (b : Bool) (x : Loc) :
    ((XAie_SetCoreExecute ri t b).tiles x).isCoreExecuting =
      if x = t then b else (ri.tiles x).isCoreExecuting := by
  rw [setCoreExecute_tiles]
  by_cases h : x = t
  · subst h; rw [if_pos rfl, if_pos rfl]
  · rw [if_neg h, if_neg h]

theorem tileType_ite_setCoreExecute (c : Prop) [Decidable c] (ri : RoutingInstance)
    (t : Loc) (b : Bool) (x : Loc) :
    (((if c then XAie_SetCoreExecute ri t b else ri)).tiles x).tile_type =
      (ri.tiles x).tile_type := by
  split
  · exact tileType_setCoreExecute ri t b x
  · rfl

theorem routesDB_ite_setCoreExecute (c : Prop) [Decidable c] (ri : RoutingInstance)
    (t : Loc) (b : Bool) (x : Loc) :
    (((if c then XAie_SetCoreExecute ri t b else ri)).tiles x).routesDB =
      (ri.tiles x).routesDB := by
  split
  · exact routesDB_setCoreExecute ri t b x
  · rfl

theorem bdState_ite_setCoreExecute (c : Prop) [Decidable c] (ri : RoutingInstance)
    (t : Loc) (b : Bool) (x : Loc) :
    (((if c then XAie_SetCoreExecute ri t b else ri)).tiles x).BDState =
      (ri.tiles x).BDState := by
  split
  · exact bdState_setCoreExecute ri t b x
  · rfl

/-- Clearing bit `k` leaves every other bit unchanged. -/
theorem testBit_clrBit_ne (x k m : Nat) (h : m ≠ k) :
    (clrBit x k).testBit m = x.testBit m := by
  unfold clrBit
  rw [Nat.testBit_xor, Nat.testBit_and, Nat.one_shiftLeft,
    Nat.testBit_two_pow_of_ne (Ne.symm h)]
  cases x.testBit m <;> rfl

/-- `findAvailableBufferID` never touches `routesDB`. -/
theorem routesDB_findAvailableBufferID (ri : RoutingInstance) (t x : Loc) :
    (((findAvailableBufferID ri t).2).tiles x).routesDB = (ri.tiles x).routesDB := by
  unfold findAvailableBufferID
  rcases hf : (List.range 48).find? (fun i => (ri.tiles t).BDState.testBit i) with _ | k
  · simp [hf]
  · by_cases hx : x = t <;> simp [hf, setTile, hx]

/-- Membership in a single `XAie_Run` sweep: exactly the in-bounds tiles
whose `isCoreExecuting` flag is set. -/
theorem mem_XAie_Run_one (ri : RoutingInstance) (t : Loc) :
    t ∈ XAie_Run ri 1 ↔
      t.Col < ri.NumCols ∧ t.Row < ri.NumRows ∧
      (ri.tiles t).isCoreExecuting = true := by
  obtain ⟨tc, tr⟩ := t
  constructor
  · intro h
    simp only [XAie_Run, List.mem_flatMap, List.mem_filterMap, List.mem_range] at h
    obtain ⟨n, _, col, hcol, row, hrow, hf⟩ := h
    split at hf
    · rename_i hex
      obtain ⟨rfl, rfl⟩ : col = tc ∧ row = tr := by
        have := Option.some.inj hf
        exact ⟨congrArg Loc.Col this, congrArg Loc.Row this⟩
      exact ⟨hcol, hrow, hex⟩
    · cases hf
  · rintro ⟨h1, h2, h3⟩
    simp only [XAie_Run, List.mem_flatMap, List.mem_filterMap, List.mem_range]
    exact ⟨0, Nat.zero_lt_one, tc, h1, tr, h2, by rw [if_pos h3]⟩

/-! ## Claim theorems -/

/-- C1: the claim states that `XAie_Route` followed by a successful
`XAie_DeRoute` restores every per-tile bitmap (slave/master bitmaps,
`MM2S_State`/`S2MM_State`, `BDState`, shim port-availability flags)
byte-for-byte.  The code violates this: on a fresh 1×2 grid, routing
shim(0,0)→compute(0,1) records a first step with slave direction `SOUTH`
and slave stream 3 (the shim Host→AIE port) although a shim tile's
`SlaveSouth` bitmap is 0x00, so the teardown *sets* bit 3 and leaves
`SlaveSouth = 0x08`; symmetrically, tearing down compute(0,1)→shim(0,0)
leaves the shim's `MasterSouth = 0x04`, and — because `XAie_DeRoute`
restores shim availability flags only when the route's **source** is a
shim — the destination shim's AIE→Host port 2 stays flagged unavailable. -/
theorem claim_C1_deroute_not_byte_for_byte :
    rA.2 = RouteRC.ok ∧ dA.2 = DeRouteRC.ok ∧
    (riA.tiles ⟨0, 0⟩).SlaveSouth = 0x00 ∧
    ((dA.1).tiles ⟨0, 0⟩).SlaveSouth = 0x08 ∧
    rAs.2 = RouteRC.ok ∧ dAs.2 = DeRouteRC.ok ∧
    (riA.tiles ⟨0, 0⟩).MasterSouth = 0x00 ∧
    ((dAs.1).tiles ⟨0, 0⟩).MasterSouth = 0x04 ∧
    ((riA.tiles ⟨0, 0⟩).AIE2HostPorts.map fun m => m.availability) = [true, true] ∧
    (((dAs.1).tiles ⟨0, 0⟩).AIE2HostPorts.map fun m => m.availability) = [false, true] := by
  decide

/-- C2: the claim states that when `XAie_Route` fails partway through
programming, every resource reserved earlier in the call is released.
The code violates this: starting from a fresh 2×3 grid, two successful
routes exhaust both S2MM channels of (0,2); a third route (1,2)→(0,2)
then fails at the terminal tile — after having cleared (1,2)'s `MM2S`
bit 0 and `MasterWest` bit 1, which are still cleared when the failing
call returns. -/
theorem claim_C2_failed_route_leaks_reservations :
    sB1.2 = RouteRC.ok ∧ sB2.2 = RouteRC.ok ∧ sB3.2 = RouteRC.programFail ∧
    (sB2.1.tiles ⟨1, 2⟩).MM2S_State = 0x3 ∧
    (sB3.1.tiles ⟨1, 2⟩).MM2S_State = 0x2 ∧
    (sB2.1.tiles ⟨1, 2⟩).MasterWest = 0xE ∧
    (sB3.1.tiles ⟨1, 2⟩).MasterWest = 0xC := by
  decide

/-- C3: the claim states that on every successfully programmed route the
slave stream recorded at step `i` equals the master stream recorded at
step `i-1`.  The code violates this for non-shim intermediate tiles: it
re-picks the slave stream as the lowest free bit of the tile's slave
bitmap instead of threading the previously bound master stream.  The
five-call scenario below (all from a fresh 2×4 grid: two routes into
(0,2), a failed route that leaks (1,2)'s MasterWest bit, a teardown, and
a final routed call forced through (0,2) by a blacklist) ends with a
successful route whose recorded (slave, master) stream pairs are
`[(1,2), (1,0), (0,0)]`: the middle step's slave stream 1 differs from
the first step's master stream 2. -/
theorem claim_C3_wire_not_threaded :
    tC1.2 = RouteRC.ok ∧ tC2.2 = RouteRC.ok ∧ tC3.2 = RouteRC.programFail ∧
    tC4.2 = DeRouteRC.ok ∧ tC5.2 = RouteRC.ok ∧
    ((tC5.1.tiles ⟨1, 2⟩).routesDB.map fun rp =>
      rp.steps.map fun st => (st.sourceStream, st.destStream)) =
      [[((1 : Int), (2 : Int)), (1, 0), (0, 0)]] := by
  decide

/-- C5 counterexample: the claim states the BFS edge check passes iff the
neighbour is in bounds, not blacklisted, not visited, and **some port
index is free in both `cur`'s master bitmap towards `d` and `nbr`'s slave
bitmap in the opposite direction**.  On `riC5` (cur = (0,0) with
`MasterNorth = 0x1`, `SlaveNorth = 0x0`; adj = (0,1) with
`SlaveSouth = 0x1`, `MasterSouth = 0x1`) every condition of the claim
holds — including the common free index 0 — yet the code's check
returns `false`, because it actually tests `cur`'s **slave** bitmap
towards `d` (here 0) and `adj`'s **master** bitmap. -/
theorem claim_C5_counterexample :
    isAdjTileValidForCurrTile riC5 none ⟨0, 0⟩ ⟨0, 1⟩ NORTH (fun _ => false) = false ∧
    ((⟨0, 1⟩ : Loc).Col < riC5.NumCols ∧ (⟨0, 1⟩ : Loc).Row < riC5.NumRows) ∧
    isTileBlackListed ⟨0, 1⟩ none = false ∧
    ((List.range 8).any fun i =>
      (riC5.tiles ⟨0, 0⟩).MasterNorth.testBit i &&
      (riC5.tiles ⟨0, 1⟩).SlaveSouth.testBit i) = true := by
  decide

/-- C5 amended: an edge from `cur` to `nbr` in cardinal direction `d` is
traversable iff `nbr` lies within grid bounds, `nbr` is not blacklisted,
`nbr` has not been visited, **`cur`'s slave bitmap in direction `d` is
non-zero and `nbr`'s master bitmap in the opposite direction is
non-zero** (no common-index pairing is required, and the master/slave
roles are the reverse of the original claim). -/
theorem claim_C5_amended (ri : RoutingInstance) (rc : Option RouteConstraints)
    (cur adj : Loc) (d : StrmSwPortType) (vis : Loc → Bool)
    (hd : d = NORTH ∨ d = SOUTH ∨ d = EAST ∨ d = WEST) :
    isAdjTileValidForCurrTile ri rc cur adj d vis =
      ((adj.Col < ri.NumCols && adj.Row < ri.NumRows) &&
       (!isTileBlackListed adj rc && !vis adj &&
        (slaveDirBitmap (ri.tiles cur) d != 0 &&
         masterDirBitmap (ri.tiles adj) (oppositeDir d) != 0))) := by
  rcases hd with rfl | rfl | rfl | rfl <;>
  · simp only [isAdjTileValidForCurrTile, slaveDirBitmap, masterDirBitmap, oppositeDir]
    cases hb : (adj.Col < ri.NumCols && adj.Row < ri.NumRows) <;> simp [hb, Bool.and_assoc]

/-- Witness for the amended C5 at a concrete input. -/
theorem claim_C5_amended_witness :
    isAdjTileValidForCurrTile riC5 none ⟨0, 0⟩ ⟨0, 1⟩ NORTH (fun _ => false) =
      (((⟨0, 1⟩ : Loc).Col < riC5.NumCols && (⟨0, 1⟩ : Loc).Row < riC5.NumRows) &&
       (!isTileBlackListed ⟨0, 1⟩ none && !(fun _ : Loc => false) ⟨0, 1⟩ &&
        (slaveDirBitmap (riC5.tiles ⟨0, 0⟩) NORTH != 0 &&
         masterDirBitmap (riC5.tiles ⟨0, 1⟩) (oppositeDir NORTH) != 0))) :=
  claim_C5_amended riC5 none ⟨0, 0⟩ ⟨0, 1⟩ NORTH (fun _ => false) (Or.inl rfl)

/-- C6: the claim states that an `XAie_MoveData` call for a pair with no
programmed route returns the no-programmed-route error **and** returns
every buffer descriptor acquired before the failure, leaving the
endpoints' `BDState` bitmaps unchanged.  The error is returned, but the
code allocates both BDs *before* the route lookup and the failure path
does not release them: on the fresh 1×2 grid both endpoint bitmaps drop
from 0xFFFF to 0xFFFE. -/
theorem claim_C6_movedata_leaks_bds_without_route :
    mA6.2 = MoveRC.noRoute ∧
    (riA.tiles ⟨0, 1⟩).BDState = 0xFFFF ∧
    (mA6.1.tiles ⟨0, 1⟩).BDState = 0xFFFE ∧
    (riA.tiles ⟨0, 0⟩).BDState = 0xFFFF ∧
    (mA6.1.tiles ⟨0, 0⟩).BDState = 0xFFFE := by
  decide

/-- C7: the claim states that after every successful `XAie_MoveData` both
allocated BDs are returned, also on memory tiles whose allocator hands
out ids 16..47.  The code violates this: `_XAie_findAvailableBufferID`
searches 48 bits but `_XAie_resetBDAvailability` frees a BD only when
`bdID < 16`.  On `riD7` (programmed route compute(0,2)→mem(0,1), memory
tile's pool reduced to bits 16..31) the call succeeds, the source BD 0 is
returned (0xFFFF stays 0xFFFF), but the destination BD 16 is lost:
0xFFFF0000 becomes 0xFFFE0000. -/
theorem claim_C7_memtile_bd_not_freed :
    rD.2 = RouteRC.ok ∧ mD7.2 = MoveRC.ok ∧
    (riD7.tiles ⟨0, 1⟩).BDState = 0xFFFF0000 ∧
    (mD7.1.tiles ⟨0, 1⟩).BDState = 0xFFFE0000 ∧
    (riD7.tiles ⟨0, 2⟩).BDState = 0xFFFF ∧
    (mD7.1.tiles ⟨0, 2⟩).BDState = 0xFFFF := by
  decide

/-- C8: `XAie_InitRoutingHandler` seeds every in-grid tile exactly per
the §4.1 table for its kind — shim tiles (tile_type 0): slaves (E,W,S,N)
= (0xF,0xF,0x00,0xF), masters (0xF,0xF,0x00,0x3F), MM2S = S2MM = 0x3,
BDState = 0xFFFF; memory tiles (tile_type 1): slaves (0,0,0x3F,0xF),
masters (0,0,0xF,0x3F), MM2S = S2MM = 0x3F, BDState = 0xFFFFFFFFFFFF;
compute tiles (tile_type 2): slaves (0xF,0xF,0x3F,0xF), masters
(0xF,0xF,0xF,0x3F), MM2S = S2MM = 0x3, BDState = 0xFFFF. -/
theorem claim_C8_init_seeding (dev : DevInst) (l : Loc)
    (hc : l.Col < dev.NumCols) (hr : l.Row < dev.NumRows) :
    (((XAie_InitRoutingHandler dev).tiles l).tile_type = 0 →
      ((XAie_InitRoutingHandler dev).tiles l).SlaveEast = 0xF ∧
      ((XAie_InitRoutingHandler dev).tiles l).SlaveWest = 0xF ∧
      ((XAie_InitRoutingHandler dev).tiles l).SlaveSouth = 0x00 ∧
      ((XAie_InitRoutingHandler dev).tiles l).SlaveNorth = 0xF ∧
      ((XAie_InitRoutingHandler dev).tiles l).MasterEast = 0xF ∧
      ((XAie_InitRoutingHandler dev).tiles l).MasterWest = 0xF ∧
      ((XAie_InitRoutingHandler dev).tiles l).MasterSouth = 0x00 ∧
      ((XAie_InitRoutingHandler dev).tiles l).MasterNorth = 0x3F ∧
      ((XAie_InitRoutingHandler dev).tiles l).MM2S_State = 0x3 ∧
      ((XAie_InitRoutingHandler dev).tiles l).S2MM_State = 0x3 ∧
      ((XAie_InitRoutingHandler dev).tiles l).BDState = 0xFFFF) ∧
    (((XAie_InitRoutingHandler dev).tiles l).tile_type = 1 →
      ((XAie_InitRoutingHandler dev).tiles l).SlaveEast = 0x00 ∧
      ((XAie_InitRoutingHandler dev).tiles l).SlaveWest = 0x00 ∧
      ((XAie_InitRoutingHandler dev).tiles l).SlaveSouth = 0x3F ∧
      ((XAie_InitRoutingHandler dev).tiles l).SlaveNorth = 0xF ∧
      ((XAie_InitRoutingHandler dev).tiles l).MasterEast = 0x00 ∧
      ((XAie_InitRoutingHandler dev).tiles l).MasterWest = 0x00 ∧
      ((XAie_InitRoutingHandler dev).tiles l).MasterSouth = 0xF ∧
      ((XAie_InitRoutingHandler dev).tiles l).MasterNorth = 0x3F ∧
      ((XAie_InitRoutingHandler dev).tiles l).MM2S_State = 0x3F ∧
      ((XAie_InitRoutingHandler dev).tiles l).S2MM_State = 0x3F ∧
      ((XAie_InitRoutingHandler dev).tiles l).BDState = 0xFFFFFFFFFFFF) ∧
    (((XAie_InitRoutingHandler dev).tiles l).tile_type = 2 →
      ((XAie_InitRoutingHandler dev).tiles l).SlaveEast = 0xF ∧
      ((XAie_InitRoutingHandler dev).tiles l).SlaveWest = 0xF ∧
      ((XAie_InitRoutingHandler dev).tiles l).SlaveSouth = 0x3F ∧
      ((XAie_InitRoutingHandler dev).tiles l).SlaveNorth = 0xF ∧
      ((XAie_InitRoutingHandler dev).tiles l).MasterEast = 0xF ∧
      ((XAie_InitRoutingHandler dev).tiles l).MasterWest = 0xF ∧
      ((XAie_InitRoutingHandler dev).tiles l).MasterSouth = 0xF ∧
      ((XAie_InitRoutingHandler dev).tiles l).MasterNorth = 0x3F ∧
      ((XAie_InitRoutingHandler dev).tiles l).MM2S_State = 0x3 ∧
      ((XAie_InitRoutingHandler dev).tiles l).S2MM_State = 0x3 ∧
      ((XAie_InitRoutingHandler dev).tiles l).BDState = 0xFFFF) := by
  have ht : (XAie_InitRoutingHandler dev).tiles l = initTileConstraint dev l.Row := by
    unfold XAie_InitRoutingHandler
    simp [hc, hr]
  have hcases : initTileConstraint dev l.Row = memTileConstraint ∨
      initTileConstraint dev l.Row = aieTileConstraint ∨
      initTileConstraint dev l.Row = shimTileConstraint ∨
      initTileConstraint dev l.Row = uninitConstraint := by
    unfold initTileConstraint
    split
    · exact Or.inl rfl
    · split
      · exact Or.inr (Or.inl rfl)
      · split
        · exact Or.inr (Or.inr (Or.inl rfl))
        · exact Or.inr (Or.inr (Or.inr rfl))
  rw [ht]
  rcases hcases with hx | hx | hx | hx <;> rw [hx] <;>
    simp [memTileConstraint, aieTileConstraint, shimTileConstraint, uninitConstraint]

/-- Witness for C8 on the three-kind 1×3 device `devD`: row 0 is a shim
tile, row 1 a memory tile, row 2 a compute tile. -/
theorem claim_C8_init_seeding_witness :
    (0 < devD.NumCols ∧ 0 < devD.NumRows ∧
      ((XAie_InitRoutingHandler devD).tiles ⟨0, 0⟩).tile_type = 0 ∧
      ((XAie_InitRoutingHandler devD).tiles ⟨0, 1⟩).tile_type = 1 ∧
      ((XAie_InitRoutingHandler devD).tiles ⟨0, 2⟩).tile_type = 2) ∧
    (((XAie_InitRoutingHandler devD).tiles ⟨0, 0⟩).tile_type = 0 →
      ((XAie_InitRoutingHandler devD).tiles ⟨0, 0⟩).SlaveEast = 0xF ∧
      ((XAie_InitRoutingHandler devD).tiles ⟨0, 0⟩).SlaveWest = 0xF ∧
      ((XAie_InitRoutingHandler devD).tiles ⟨0, 0⟩).SlaveSouth = 0x00 ∧
      ((XAie_InitRoutingHandler devD).tiles ⟨0, 0⟩).SlaveNorth = 0xF ∧
      ((XAie_InitRoutingHandler devD).tiles ⟨0, 0⟩).MasterEast = 0xF ∧
      ((XAie_InitRoutingHandler devD).tiles ⟨0, 0⟩).MasterWest = 0xF ∧
      ((XAie_InitRoutingHandler devD).tiles ⟨0, 0⟩).MasterSouth = 0x00 ∧
      ((XAie_InitRoutingHandler devD).tiles ⟨0, 0⟩).MasterNorth = 0x3F ∧
      ((XAie_InitRoutingHandler devD).tiles ⟨0, 0⟩).MM2S_State = 0x3 ∧
      ((XAie_InitRoutingHandler devD).tiles ⟨0, 0⟩).S2MM_State = 0x3 ∧
      ((XAie_InitRoutingHandler devD).tiles ⟨0, 0⟩).BDState = 0xFFFF) :=
  ⟨by decide, (claim_C8_init_seeding devD ⟨0, 0⟩ (by decide) (by decide)).1⟩

/-- C9 (implicit frame effect): on every successful `XAie_Route`, each
endpoint that is neither a shim tile nor a memory tile has its
`isCoreExecuting` flag forced to `true` — independently for the source
and the destination, as the code tests the two endpoints in separate
`if`s — and consequently a following `XAie_Run` sweep enables that
endpoint's core (when it lies in the grid), whether or not the user
ever called `XAie_SetCoreExecute`. -/
theorem claim_C9_route_sets_core_executing (ri : RoutingInstance)
    (rc : Option RouteConstraints) (s d : Loc) (ri' : RoutingInstance)
    (h : XAie_Route ri rc s d = (ri', RouteRC.ok)) :
    ((ri'.tiles s).tile_type ≠ 0 → (ri'.tiles s).tile_type ≠ 1 →
      (ri'.tiles s).isCoreExecuting = true ∧
      (s.Col < ri'.NumCols → s.Row < ri'.NumRows → s ∈ XAie_Run ri' 1)) ∧
    ((ri'.tiles d).tile_type ≠ 0 → (ri'.tiles d).tile_type ≠ 1 →
      (ri'.tiles d).isCoreExecuting = true ∧
      (d.Col < ri'.NumCols → d.Row < ri'.NumRows → d ∈ XAie_Run ri' 1)) := by
  unfold XAie_Route at h
  split at h
  · exact absurd (congrArg Prod.snd h) (by simp)
  · split at h
    · exact absurd (congrArg Prod.snd h) (by simp)
    · split at h
      · exact absurd (congrArg Prod.snd h) (by simp)
      · rename_i riP hperf
        have hri' : ri' =
            (if !isShimTile
                  (if !isShimTile riP s && !isMemTile riP s then
                    XAie_SetCoreExecute riP s true
                  else riP) d &&
                !isMemTile
                  (if !isShimTile riP s && !isMemTile riP s then
                    XAie_SetCoreExecute riP s true
                  else riP) d then
              XAie_SetCoreExecute
                (if !isShimTile riP s && !isMemTile riP s then
                  XAie_SetCoreExecute riP s true
                else riP) d true
            else
              (if !isShimTile riP s && !isMemTile riP s then
                XAie_SetCoreExecute riP s true
              else riP)) := (congrArg Prod.fst h).symm
        set ri2 := if !isShimTile riP s && !isMemTile riP s then
            XAie_SetCoreExecute riP s true else riP with hri2
        -- tile types are invariant under the final flag updates
        have htyS2 : ∀ x, (ri2.tiles x).tile_type = (riP.tiles x).tile_type := by
          intro x
          rw [hri2]
          exact tileType_ite_setCoreExecute _ riP s true x
        have hty3 : ∀ x, (ri'.tiles x).tile_type = (ri2.tiles x).tile_type := by
          intro x
          rw [hri']
          exact tileType_ite_setCoreExecute _ ri2 d true x
        constructor
        · -- the source endpoint, whatever the destination's kind
          intro hs0 hs1
          have hcondS : (!isShimTile riP s && !isMemTile riP s) = true := by
            have h0 : (riP.tiles s).tile_type ≠ 0 := by
              rw [← htyS2 s, ← hty3 s]; exact hs0
            have h1 : (riP.tiles s).tile_type ≠ 1 := by
              rw [← htyS2 s, ← hty3 s]; exact hs1
            simp [isShimTile, isMemTile, h0, h1]
          have hri2eq : ri2 = XAie_SetCoreExecute riP s true := by
            rw [hri2, if_pos hcondS]
          have hexecS : (ri'.tiles s).isCoreExecuting = true := by
            rw [hri']
            by_cases hcd : (!isShimTile ri2 d && !isMemTile ri2 d) = true
            · rw [if_pos hcd, isCoreExecuting_setCoreExecute]
              split
              · rfl
              · rw [hri2eq, isCoreExecuting_setCoreExecute, if_pos rfl]
            · rw [if_neg hcd, hri2eq, isCoreExecuting_setCoreExecute, if_pos rfl]
          refine ⟨hexecS, ?_⟩
          intro hc hr
          exact (mem_XAie_Run_one ri' s).mpr ⟨hc, hr, hexecS⟩
        · -- the destination endpoint, whatever the source's kind
          intro hd0 hd1
          have hcondD : (!isShimTile ri2 d && !isMemTile ri2 d) = true := by
            have h0 : (ri2.tiles d).tile_type ≠ 0 := by rw [← hty3 d]; exact hd0
            have h1 : (ri2.tiles d).tile_type ≠ 1 := by rw [← hty3 d]; exact hd1
            simp [isShimTile, isMemTile, h0, h1]
          have hexecD : (ri'.tiles d).isCoreExecuting = true := by
            rw [hri', if_pos hcondD, isCoreExecuting_setCoreExecute, if_pos rfl]
          refine ⟨hexecD, ?_⟩
          intro hc hr
          exact (mem_XAie_Run_one ri' d).mpr ⟨hc, hr, hexecD⟩

/-- Witness for C9: the compute→compute route (0,1)→(1,1) on the fresh
2×2 grid marks both endpoints executing and a following `XAie_Run`
enables them; the shim→compute route (0,0)→(0,1) on the fresh 1×2 grid
still marks its qualifying destination endpoint executing. -/
theorem claim_C9_route_sets_core_executing_witness :
    ((rF.1.tiles ⟨0, 1⟩).isCoreExecuting = true ∧
      (rF.1.tiles ⟨1, 1⟩).isCoreExecuting = true ∧
      (⟨0, 1⟩ : Loc) ∈ XAie_Run rF.1 1 ∧ (⟨1, 1⟩ : Loc) ∈ XAie_Run rF.1 1) ∧
    (rA.1.tiles ⟨0, 1⟩).isCoreExecuting = true := by
  have hF := claim_C9_route_sets_core_executing riF none ⟨0, 1⟩ ⟨1, 1⟩ rF.1
    (Prod.ext rfl (by decide))
  have hA := claim_C9_route_sets_core_executing riA none ⟨0, 0⟩ ⟨0, 1⟩ rA.1
    (Prod.ext rfl (by decide))
  exact ⟨⟨(hF.1 (by decide) (by decide)).1, (hF.2 (by decide) (by decide)).1,
    (hF.1 (by decide) (by decide)).2 (by decide) (by decide),
    (hF.2 (by decide) (by decide)).2 (by decide) (by decide)⟩,
    (hA.2 (by decide) (by decide)).1⟩

/-- C10 (implicit): when source equals destination, the path finder
reports the zero-length path and `XAie_Route` succeeds without inserting
anything into the route catalog; a second identical `XAie_Route` also
succeeds (no duplicate detected), and a subsequent `XAie_MoveData` for
the pair fails with the no-programmed-route error (the pair hypotheses
`i`/`j` merely ensure the tile's BD pool is not exhausted, so that the
call reaches the route lookup). -/
theorem claim_C10_self_route_no_catalog_entry (ri : RoutingInstance) (s : Loc)
    (hdb : findRouteInRouteDB (ri.tiles s).routesDB s s = none)
    (i j : Nat) (hij : i ≠ j) (hi : i < 48) (hj : j < 48)
    (hbi : (ri.tiles s).BDState.testBit i = true)
    (hbj : (ri.tiles s).BDState.testBit j = true) :
    findShortestPath ri none s s = some [] ∧
    (XAie_Route ri none s s).2 = RouteRC.ok ∧
    (∀ t, (((XAie_Route ri none s s).1).tiles t).routesDB = (ri.tiles t).routesDB) ∧
    (XAie_Route (XAie_Route ri none s s).1 none s s).2 = RouteRC.ok ∧
    (XAie_MoveData (XAie_Route ri none s s).1 s s).2 = MoveRC.noRoute := by
  have hpath : findShortestPath ri none s s = some [] := by
    unfold findShortestPath
    rw [if_pos rfl]
  have hroute : ∀ r : RoutingInstance, findRouteInRouteDB (r.tiles s).routesDB s s = none →
      (XAie_Route r none s s).2 = RouteRC.ok ∧
      ∀ t, (((XAie_Route r none s s).1).tiles t).routesDB = (r.tiles t).routesDB := by
    intro r hr
    have hp : findShortestPath r none s s = some [] := by
      unfold findShortestPath
      rw [if_pos rfl]
    have hperf : performRoutingOnPath r s s [] = (r, true) := rfl
    unfold XAie_Route
    rw [hr, hp]
    simp only [Option.isSome_none, Bool.false_eq_true, if_false, hperf]
    refine ⟨trivial, ?_⟩
    intro t
    have h1 := routesDB_ite_setCoreExecute
      ((!isShimTile r s && !isMemTile r s) = true)
      r s true t
    have h2 := routesDB_ite_setCoreExecute
      ((!isShimTile (if !isShimTile r s && !isMemTile r s then
          XAie_SetCoreExecute r s true else r) s &&
        !isMemTile (if !isShimTile r s && !isMemTile r s then
          XAie_SetCoreExecute r s true else r) s) = true)
      (if !isShimTile r s && !isMemTile r s then
        XAie_SetCoreExecute r s true else r) s true t
    exact h2.trans h1
  obtain ⟨hok1, hdb1⟩ := hroute ri hdb
  have hdb1s : findRouteInRouteDB (((XAie_Route ri none s s).1).tiles s).routesDB s s
      = none := by rw [hdb1 s]; exact hdb
  obtain ⟨hok2, _⟩ := hroute (XAie_Route ri none s s).1 hdb1s
  refine ⟨hpath, hok1, hdb1, hok2, ?_⟩
  -- the MoveData call: both BD allocations succeed, then the lookup fails
  set ri1 := (XAie_Route ri none s s).1 with hri1
  have hbd1 : (ri1.tiles s).BDState = (ri.tiles s).BDState := by
    rw [hri1]
    have hp : findShortestPath ri none s s = some [] := by
      unfold findShortestPath
      rw [if_pos rfl]
    have hperf : performRoutingOnPath ri s s [] = (ri, true) := rfl
    unfold XAie_Route
    rw [hdb, hp]
    simp only [Option.isSome_none, Bool.false_eq_true, if_false, hperf]
    have h1 := bdState_ite_setCoreExecute
      ((!isShimTile ri s && !isMemTile ri s) = true) ri s true s
    have h2 := bdState_ite_setCoreExecute
      ((!isShimTile (if !isShimTile ri s && !isMemTile ri s then
          XAie_SetCoreExecute ri s true else ri) s &&
        !isMemTile (if !isShimTile ri s && !isMemTile ri s then
          XAie_SetCoreExecute ri s true else ri) s) = true)
      (if !isShimTile ri s && !isMemTile ri s then
        XAie_SetCoreExecute ri s true else ri) s true s
    exact h2.trans h1
  -- first allocation
  obtain ⟨k1, hk1⟩ : ∃ k, (List.range 48).find?
      (fun m => (ri1.tiles s).BDState.testBit m) = some k := by
    have : ((List.range 48).find?
        (fun m => (ri1.tiles s).BDState.testBit m)).isSome := by
      rw [List.find?_isSome]
      exact ⟨i, List.mem_range.mpr hi, by rw [hbd1]; exact hbi⟩
    exact Option.isSome_iff_exists.mp this
  have halloc1 : findAvailableBufferID ri1 s =
      ((k1 : Int), setTile ri1 s
        { ri1.tiles s with BDState := clrBit (ri1.tiles s).BDState k1 }) := by
    simp only [findAvailableBufferID, hk1]
  set ri2 := setTile ri1 s
    { ri1.tiles s with BDState := clrBit (ri1.tiles s).BDState k1 } with hri2
  have hbd2 : (ri2.tiles s).BDState = clrBit (ri1.tiles s).BDState k1 := by
    rw [hri2, tiles_setTile, if_pos rfl]
  -- a second free bit survives the first clear
  obtain ⟨m, hm48, hmne, hmbit⟩ : ∃ m, m < 48 ∧ m ≠ k1 ∧
      (ri1.tiles s).BDState.testBit m = true := by
    by_cases hik : i = k1
    · exact ⟨j, hj, by rw [← hik]; exact (Ne.symm hij), by rw [hbd1]; exact hbj⟩
    · exact ⟨i, hi, hik, by rw [hbd1]; exact hbi⟩
  obtain ⟨k2, hk2⟩ : ∃ k, (List.range 48).find?
      (fun n => (ri2.tiles s).BDState.testBit n) = some k := by
    have : ((List.range 48).find?
        (fun n => (ri2.tiles s).BDState.testBit n)).isSome := by
      rw [List.find?_isSome]
      refine ⟨m, List.mem_range.mpr hm48, ?_⟩
      rw [hbd2, testBit_clrBit_ne _ _ _ hmne]
      exact hmbit
    exact Option.isSome_iff_exists.mp this
  have halloc2 : findAvailableBufferID ri2 s =
      ((k2 : Int), setTile ri2 s
        { ri2.tiles s with BDState := clrBit (ri2.tiles s).BDState k2 }) := by
    simp only [findAvailableBufferID, hk2]
  set ri3 := setTile ri2 s
    { ri2.tiles s with BDState := clrBit (ri2.tiles s).BDState k2 } with hri3
  have hne1 : ((k1 : Int) == -1) = false := by
    simp
  have hne2 : ((k2 : Int) == -1) = false := by
    simp
  have hprog : programBufferDescriptors ri1 s s =
      (ri3, u16ofInt (k1 : Int), u16ofInt (k2 : Int), true) := by
    unfold programBufferDescriptors
    rw [halloc1]
    simp only [hne1, Bool.false_eq_true, if_false]
    rw [halloc2]
    simp only [hne2, Bool.false_eq_true, if_false]
  have hdb3 : findRouteInRouteDB ((ri3.tiles s)).routesDB s s = none := by
    have e2 : ((ri2.tiles s)).routesDB = ((ri1.tiles s)).routesDB := by
      rw [hri2, tiles_setTile, if_pos rfl]
    have e3 : ((ri3.tiles s)).routesDB = ((ri2.tiles s)).routesDB := by
      rw [hri3, tiles_setTile, if_pos rfl]
    rw [e3, e2]
    exact hdb1s
  unfold XAie_MoveData
  rw [hprog]
  simp only [Bool.not_true, Bool.false_eq_true, if_false]
  rw [hdb3]

/-- Witness for C10 on the fresh 1×2 grid with source = destination =
the compute tile (0,1). -/
theorem claim_C10_self_route_no_catalog_entry_witness :
    findShortestPath riA none ⟨0, 1⟩ ⟨0, 1⟩ = some [] ∧
    (XAie_Route riA none ⟨0, 1⟩ ⟨0, 1⟩).2 = RouteRC.ok ∧
    (∀ t, (((XAie_Route riA none ⟨0, 1⟩ ⟨0, 1⟩).1).tiles t).routesDB =
      (riA.tiles t).routesDB) ∧
    (XAie_Route (XAie_Route riA none ⟨0, 1⟩ ⟨0, 1⟩).1 none ⟨0, 1⟩ ⟨0, 1⟩).2 =
      RouteRC.ok ∧
    (XAie_MoveData (XAie_Route riA none ⟨0, 1⟩ ⟨0, 1⟩).1 ⟨0, 1⟩ ⟨0, 1⟩).2 =
      MoveRC.noRoute :=
  claim_C10_self_route_no_catalog_entry riA ⟨0, 1⟩ (by decide) 0 1 (by decide)
    (by decide) (by decide) (by decide) (by decide)

/-! ## C4: basic lemmas about the BFS notions -/

theorem locAdd_col_ne (l : Loc) (d : Int) (hd : d = 1 ∨ d = -1) : locAdd l d 0 ≠ l := by
  intro h
  have hc := congrArg Loc.Col h
  simp only [locAdd] at hc
  have hb : ((l.Col : Int) + d).emod 256 = ((l.Col : Int) + d) % 256 := rfl
  rw [hb] at hc
  rcases hd with rfl | rfl <;> omega

theorem locAdd_row_ne (l : Loc) (d : Int) (hd : d = 1 ∨ d = -1) : locAdd l 0 d ≠ l := by
  intro h
  have hc := congrArg Loc.Row h
  simp only [locAdd] at hc
  have hb : ((l.Row : Int) + d).emod 256 = ((l.Row : Int) + d) % 256 := rfl
  rw [hb] at hc
  rcases hd with rfl | rfl <;> omega

/-- The live edge check splits into the static edge check and the
visited test. -/
theorem isAdjValid_split (ri : RoutingInstance) (rc : Option RouteConstraints)
    (c a : Loc) (d : StrmSwPortType) (vis : Loc → Bool) :
    isAdjTileValidForCurrTile ri rc c a d vis =
      (isAdjTileValidForCurrTile ri rc c a d (fun _ => false) && !vis a) := by
  unfold isAdjTileValidForCurrTile
  split
  · cases hbl : isTileBlackListed a rc <;> cases hv : vis a <;> simp [hbl, hv]
  · rfl

theorem isAdjValid_bounds (ri : RoutingInstance) (rc : Option RouteConstraints)
    (c a : Loc) (d : StrmSwPortType) (vis : Loc → Bool)
    (h : isAdjTileValidForCurrTile ri rc c a d vis = true) :
    a.Col < ri.NumCols ∧ a.Row < ri.NumRows := by
  unfold isAdjTileValidForCurrTile at h
  split at h
  · rename_i hb
    simpa using hb
  · cases h

theorem isAdjValid_black (ri : RoutingInstance) (rc : Option RouteConstraints)
    (c a : Loc) (d : StrmSwPortType) (vis : Loc → Bool)
    (h : isAdjTileValidForCurrTile ri rc c a d vis = true) :
    isTileBlackListed a rc = false := by
  unfold isAdjTileValidForCurrTile at h
  split at h
  · cases hbl : isTileBlackListed a rc
    · rfl
    · rw [hbl] at h
      simp at h
  · cases h

/-- Membership form of `edgeVia`. -/
theorem edgeVia_iff (ri : RoutingInstance) (rc : Option RouteConstraints)
    (dirs : List (Int × Int × StrmSwPortType)) (u v : Loc) :
    edgeVia ri rc dirs u v = true ↔
      ∃ p ∈ dirs, v = locAdd u p.2.1 p.1 ∧
        isAdjTileValidForCurrTile ri rc u v p.2.2 (fun _ => false) = true := by
  unfold edgeVia
  rw [List.any_eq_true]
  constructor
  · rintro ⟨p, hp, hpp⟩
    rw [Bool.and_eq_true, decide_eq_true_eq] at hpp
    exact ⟨p, hp, hpp.1, hpp.2⟩
  · rintro ⟨p, hp, h1, h2⟩
    exact ⟨p, hp, by rw [Bool.and_eq_true, decide_eq_true_eq]; exact ⟨h1, h2⟩⟩

theorem edgeB_bounds (ri : RoutingInstance) (rc : Option RouteConstraints)
    (u v : Loc) (h : edgeB ri rc u v = true) :
    v.Col < ri.NumCols ∧ v.Row < ri.NumRows := by
  obtain ⟨p, _, _, hval⟩ := (edgeVia_iff ri rc bfsDirs u v).mp h
  exact isAdjValid_bounds _ _ _ _ _ _ hval

theorem edgeB_black (ri : RoutingInstance) (rc : Option RouteConstraints)
    (u v : Loc) (h : edgeB ri rc u v = true) : isTileBlackListed v rc = false := by
  obtain ⟨p, _, _, hval⟩ := (edgeVia_iff ri rc bfsDirs u v).mp h
  exact isAdjValid_black _ _ _ _ _ _ hval

/-- Every BFS neighbour differs from the tile itself (coordinates move by
±1 modulo 256). -/
theorem edgeB_ne (ri : RoutingInstance) (rc : Option RouteConstraints)
    (u v : Loc) (h : edgeB ri rc u v = true) : v ≠ u := by
  obtain ⟨p, hp, heq, _⟩ := (edgeVia_iff ri rc bfsDirs u v).mp h
  subst heq
  simp only [bfsDirs, List.mem_cons, List.not_mem_nil, or_false] at hp
  rcases hp with rfl | rfl | rfl | rfl
  · exact locAdd_row_ne u 1 (Or.inl rfl)
  · exact locAdd_row_ne u (-1) (Or.inr rfl)
  · exact locAdd_col_ne u 1 (Or.inl rfl)
  · exact locAdd_col_ne u (-1) (Or.inr rfl)

theorem isDist_unique (ri : RoutingInstance) (rc : Option RouteConstraints)
    (src x : Loc) (n m : Nat) (h1 : IsDist ri rc src x n) (h2 : IsDist ri rc src x m) :
    n = m :=
  Nat.le_antisymm (h1.2 m h2.1) (h2.2 n h1.1)

theorem isDist_src (ri : RoutingInstance) (rc : Option RouteConstraints) (src : Loc) :
    IsDist ri rc src src 0 :=
  ⟨rfl, fun m _ => Nat.zero_le m⟩

theorem stepsTo_src_zero (ri : RoutingInstance) (rc : Option RouteConstraints)
    (src x : Loc) (h : stepsTo ri rc src 0 x) : x = src := h

theorem exists_isDist (ri : RoutingInstance) (rc : Option RouteConstraints)
    (src x : Loc) (m : Nat) (h : stepsTo ri rc src m x) :
    ∃ n, IsDist ri rc src x n := by
  classical
  have hne : ∃ n, stepsTo ri rc src n x := ⟨m, h⟩
  exact ⟨Nat.find hne, Nat.find_spec hne, fun k hk => Nat.find_min' hne hk⟩

/-- A positive-distance node has a parent at the previous distance. -/
theorem isDist_succ_parent (ri : RoutingInstance) (rc : Option RouteConstraints)
    (src y : Loc) (k : Nat) (h : IsDist ri rc src y (k + 1)) :
    ∃ u, IsDist ri rc src u k ∧ edgeB ri rc u y = true := by
  obtain ⟨u, hu, hedge⟩ := h.1
  obtain ⟨n, hn⟩ := exists_isDist ri rc src u k hu
  have hnk : n ≤ k := hn.2 k hu
  have hlow : k ≤ n := by
    have : stepsTo ri rc src (n + 1) y := ⟨u, hn.1, hedge⟩
    have := h.2 (n + 1) this
    omega
  have : n = k := Nat.le_antisymm hnk hlow
  subst this
  exact ⟨u, hn, hedge⟩

theorem pchain_src_zero (pr : Loc → Loc) (src : Loc) (n : Nat)
    (h : PChain pr src src n) : n = 0 := by
  cases h with
  | base => rfl
  | step _ _ hne _ => exact absurd rfl hne

theorem pchain_unique (pr : Loc → Loc) (src x : Loc) (n m : Nat)
    (h1 : PChain pr src x n) (h2 : PChain pr src x m) : n = m := by
  induction h1 generalizing m with
  | base => exact (pchain_src_zero pr src m h2).symm
  | step v n' hne _ ih =>
    cases h2 with
    | base => exact absurd rfl hne
    | step _ m' _ hm' => exact congrArg (· + 1) (ih m' hm')

/-- Parent chains are stable under a pred-map update at a tile that is
not on the chain; every chain node other than the source is visited, so
updating the pred of an unvisited non-source tile preserves all chains
through visited tiles. -/
theorem pchain_update (pr : Loc → Loc) (src : Loc) (v : Loc → Bool)
    (hparent : ∀ y, v y = true → y ≠ src →
      (v (pr y) = true ∨ pr y = src))
    (adj cur : Loc) (hadj : v adj = false)
    (x : Loc) (n : Nat) (h : PChain pr src x n) (hx : v x = true ∨ x = src) :
    PChain (fun z => if z = adj then cur else pr z) src x n := by
  induction h with
  | base => exact PChain.base
  | step y n' hne hch ih =>
    have hy : v y = true := by
      rcases hx with hx | hx
      · exact hx
      · exact absurd hx hne
    have hyne : y ≠ adj := by
      intro he
      rw [he, hadj] at hy
      cases hy
    have hpar := hparent y hy hne
    have := ih hpar
    refine PChain.step y n' hne ?_
    rw [if_neg hyne]
    exact this

theorem mem_gridFinset (ri : RoutingInstance) (t : Loc) :
    t ∈ gridFinset ri ↔ t.Col < ri.NumCols ∧ t.Row < ri.NumRows := by
  obtain ⟨tc, tr⟩ := t
  simp only [gridFinset, Finset.mem_map, Finset.mem_product, Finset.mem_range,
    Function.Embedding.coeFn_mk]
  constructor
  · rintro ⟨⟨pc, pr⟩, ⟨h1, h2⟩, heq⟩
    obtain ⟨rfl, rfl⟩ : pc = tc ∧ pr = tr :=
      ⟨congrArg Loc.Col heq, congrArg Loc.Row heq⟩
    exact ⟨h1, h2⟩
  · rintro ⟨h1, h2⟩
    exact ⟨(tc, tr), ⟨h1, h2⟩, rfl⟩

theorem card_gridFinset (ri : RoutingInstance) :
    (gridFinset ri).card = ri.NumRows * ri.NumCols := by
  rw [gridFinset, Finset.card_map, Finset.card_product, Finset.card_range,
    Finset.card_range, Nat.mul_comm]

theorem unvisCount_mono (ri : RoutingInstance) (v v' : Loc → Bool)
    (h : ∀ x, v x = true → v' x = true) :
    unvisCount ri v' ≤ unvisCount ri v := by
  apply Finset.card_le_card
  intro t ht
  rw [Finset.mem_filter] at ht ⊢
  refine ⟨ht.1, ?_⟩
  cases hv : v t
  · rfl
  · rw [h t hv] at ht
    cases ht.2

/-- Marking an unvisited in-bounds tile strictly decreases the count. -/
theorem unvisCount_mark (ri : RoutingInstance) (v : Loc → Bool) (t : Loc)
    (ht : v t = false) (hb : t.Col < ri.NumCols ∧ t.Row < ri.NumRows) :
    unvisCount ri (fun x => if x = t then true else v x) + 1 ≤ unvisCount ri v := by
  have hlt : unvisCount ri (fun x => if x = t then true else v x) < unvisCount ri v := by
    apply Finset.card_lt_card
    rw [Finset.ssubset_iff_of_subset]
    · exact ⟨t, by
        rw [Finset.mem_filter]
        exact ⟨(mem_gridFinset ri t).mpr hb, ht⟩, by
        rw [Finset.mem_filter]
        rintro ⟨_, hm⟩
        simp at hm⟩
    · intro x hx
      rw [Finset.mem_filter] at hx ⊢
      refine ⟨hx.1, ?_⟩
      have := hx.2
      simp only [] at this
      by_cases hxt : x = t
      · rw [if_pos hxt] at this
        cases this
      · rw [if_neg hxt] at this
        exact this
  omega

/-! ## C4: the neighbour-scan lemma -/

theorem enqueue_no_drop (q : Queue) (x : Loc) (h : q.elems.length ≠ q.capacity) :
    enqueue q x = ⟨q.capacity, q.elems ++ [x]⟩ := by
  unfold enqueue
  rw [if_neg (by simpa using h)]

theorem discoveryWhitelisted_of_empty (rc : Option RouteConstraints)
    (hwl : ∀ c, rc = some c → c.WhiteListedCores = [])
    (pr : Loc → Loc) (src adj : Loc) (fuel : Nat) :
    discoveryWhitelisted rc pr src adj fuel = true := by
  cases rc with
  | none => rfl
  | some c =>
    simp only [discoveryWhitelisted]
    rw [hwl c rfl]
    rfl

theorem processNeighbors_cons (ri : RoutingInstance) (rc : Option RouteConstraints)
    (src dst : Loc) (wfuel : Nat) (cur : Loc)
    (dRow dCol : Int) (port : StrmSwPortType)
    (rest : List (Int × Int × StrmSwPortType))
    (v : Loc → Bool) (pr : Loc → Loc) (q : Queue) :
    processNeighbors ri rc src dst wfuel cur ((dRow, dCol, port) :: rest) v pr q =
      (if isAdjTileValidForCurrTile ri rc cur (locAdd cur dCol dRow) port v then
        (if locAdd cur dCol dRow = dst then
          (if discoveryWhitelisted rc (markP pr (locAdd cur dCol dRow) cur)
              src (locAdd cur dCol dRow) wfuel then
            (markV v (locAdd cur dCol dRow),
             markP pr (locAdd cur dCol dRow) cur,
             enqueue q (locAdd cur dCol dRow), true)
          else
            processNeighbors ri rc src dst wfuel cur rest
              (markV v (locAdd cur dCol dRow))
              (markP pr (locAdd cur dCol dRow) cur)
              (enqueue q (locAdd cur dCol dRow)))
        else
          processNeighbors ri rc src dst wfuel cur rest
            (markV v (locAdd cur dCol dRow))
            (markP pr (locAdd cur dCol dRow) cur)
            (enqueue q (locAdd cur dCol dRow)))
      else processNeighbors ri rc src dst wfuel cur rest v pr q) := rfl

theorem edgeVia_nil (ri : RoutingInstance) (rc : Option RouteConstraints)
    (u y : Loc) : edgeVia ri rc [] u y = false := rfl

theorem edgeVia_cons_elim (ri : RoutingInstance) (rc : Option RouteConstraints)
    (d : Int × Int × StrmSwPortType) (rest : List (Int × Int × StrmSwPortType))
    (u y : Loc) (h : edgeVia ri rc (d :: rest) u y = true) :
    (y = locAdd u d.2.1 d.1 ∧
      isAdjTileValidForCurrTile ri rc u y d.2.2 (fun _ => false) = true) ∨
    edgeVia ri rc rest u y = true := by
  rw [edgeVia_iff] at h
  obtain ⟨p, hp, h1, h2⟩ := h
  rcases List.mem_cons.mp hp with rfl | hp2
  · exact Or.inl ⟨h1, h2⟩
  · exact Or.inr ((edgeVia_iff ri rc rest u y).mpr ⟨p, hp2, h1, h2⟩)

/-- Marking one freshly discovered neighbour `adj` of the level-`k` tile
`cur` re-establishes the chain, parent and bounds invariants and pins the
new tile's BFS distance at `k + 1` (unless it is the re-discovered
source). -/
theorem markStep (ri : RoutingInstance) (rc : Option RouteConstraints)
    (src cur adj : Loc) (k : Nat) (v : Loc → Bool) (pr : Loc → Loc)
    (hcur : IsDist ri rc src cur k ∨ cur = src)
    (hcm : v cur = true ∨ cur = src)
    (hchain : ∀ x, v x = true → ∃ n, PChain pr src x n ∧ IsDist ri rc src x n)
    (hparent : ∀ x, v x = true → x ≠ src →
      edgeB ri rc (pr x) x = true ∧ (v (pr x) = true ∨ pr x = src))
    (hinb : ∀ x, v x = true → x.Col < ri.NumCols ∧ x.Row < ri.NumRows)
    (hbelow : ∀ y m, IsDist ri rc src y m → m ≤ k → v y = true ∨ y = src)
    (hvadj : v adj = false)
    (hb : adj.Col < ri.NumCols ∧ adj.Row < ri.NumRows)
    (hedge : edgeB ri rc cur adj = true) :
    (IsDist ri rc src adj (k + 1) ∨ adj = src) ∧
    (∀ x, markV v adj x = true →
      ∃ n, PChain (markP pr adj cur) src x n ∧ IsDist ri rc src x n) ∧
    (∀ x, markV v adj x = true → x ≠ src →
      edgeB ri rc (markP pr adj cur x) x = true ∧
        (markV v adj (markP pr adj cur x) = true ∨ markP pr adj cur x = src)) ∧
    (∀ x, markV v adj x = true → x.Col < ri.NumCols ∧ x.Row < ri.NumRows) := by
  have hparentproj : ∀ y, v y = true → y ≠ src → (v (pr y) = true ∨ pr y = src) :=
    fun y hy hys => (hparent y hy hys).2
  obtain ⟨dc, hdck, hstepc, hpchc⟩ :
      ∃ dc, dc ≤ k ∧ stepsTo ri rc src dc cur ∧ PChain pr src cur dc := by
    rcases hcur with hd | hs
    · rcases hcm with hv | hs2
      · obtain ⟨n0, hp0, hd0⟩ := hchain cur hv
        exact ⟨k, le_refl k, hd.1, (isDist_unique ri rc src cur n0 k hd0 hd) ▸ hp0⟩
      · refine ⟨0, Nat.zero_le k, hs2, ?_⟩
        rw [hs2]
        exact PChain.base
    · refine ⟨0, Nat.zero_le k, hs, ?_⟩
      rw [hs]
      exact PChain.base
  have hdadj : (IsDist ri rc src adj (k + 1) ∧ adj ≠ src) ∨ adj = src := by
    by_cases hasrc : adj = src
    · exact Or.inr hasrc
    · have hstep1 : stepsTo ri rc src (dc + 1) adj := ⟨cur, hstepc, hedge⟩
      obtain ⟨n, hn⟩ := exists_isDist ri rc src adj (dc + 1) hstep1
      have h1 : n ≤ dc + 1 := hn.2 _ hstep1
      have h2 : ¬ n ≤ k := by
        intro hle
        rcases hbelow adj n hn hle with h | h
        · rw [h] at hvadj
          cases hvadj
        · exact hasrc h
      have hnk : n = k + 1 := by omega
      exact Or.inl ⟨hnk ▸ hn, hasrc⟩
  have hchadj : ∃ n, PChain (markP pr adj cur) src adj n ∧ IsDist ri rc src adj n := by
    rcases hdadj with ⟨hd, hasrc⟩ | hasrc
    · have hdceq : dc = k := by
        have := hd.2 (dc + 1) ⟨cur, hstepc, hedge⟩
        omega
      refine ⟨k + 1, ?_, hd⟩
      refine PChain.step adj k hasrc ?_
      have hpadj : markP pr adj cur adj = cur := by
        simp [markP]
      rw [hpadj]
      have hupd := pchain_update pr src v hparentproj adj cur hvadj cur dc hpchc hcm
      rw [hdceq] at hupd
      exact hupd
    · rw [hasrc]
      exact ⟨0, PChain.base, isDist_src ri rc src⟩
  refine ⟨?_, ?_, ?_, ?_⟩
  · rcases hdadj with ⟨hd, _⟩ | h
    · exact Or.inl hd
    · exact Or.inr h
  · intro x hx
    by_cases hxa : x = adj
    · rw [hxa]
      exact hchadj
    · have hvx : v x = true := by
        simp only [markV] at hx
        rwa [if_neg hxa] at hx
      obtain ⟨n0, hp0, hd0⟩ := hchain x hvx
      exact ⟨n0, pchain_update pr src v hparentproj adj cur hvadj x n0 hp0 (Or.inl hvx), hd0⟩
  · intro x hx hxs
    by_cases hxa : x = adj
    · have hpadj : markP pr adj cur x = cur := by
        simp only [markP]
        rw [if_pos hxa]
      rw [hpadj]
      refine ⟨by rw [hxa]; exact hedge, ?_⟩
      rcases hcm with hv | hs
      · left
        simp only [markV]
        split
        · rfl
        · exact hv
      · exact Or.inr hs
    · have hvx : v x = true := by
        simp only [markV] at hx
        rwa [if_neg hxa] at hx
      obtain ⟨he, hp⟩ := hparent x hvx hxs
      have hpx : markP pr adj cur x = pr x := by
        simp only [markP]
        rw [if_neg hxa]
      rw [hpx]
      refine ⟨he, ?_⟩
      rcases hp with hv2 | hs2
      · left
        simp only [markV]
        split
        · rfl
        · exact hv2
      · exact Or.inr hs2
  · intro x hx
    by_cases hxa : x = adj
    · rw [hxa]
      exact hb
    · have hvx : v x = true := by
        simp only [markV] at hx
        rwa [if_neg hxa] at hx
      exact hinb x hvx

/-- Full behaviour of the four-neighbour scan of one dequeued tile. -/
theorem processNeighbors_spec (ri : RoutingInstance) (rc : Option RouteConstraints)
    (src dst : Loc) (wfuel : Nat) (cur : Loc) (k : Nat)
    (hcur : IsDist ri rc src cur k ∨ cur = src) :
    ∀ (dirs : List (Int × Int × StrmSwPortType)), (∀ x ∈ dirs, x ∈ bfsDirs) →
    ∀ (v : Loc → Bool) (pr : Loc → Loc) (q : Queue),
    (v cur = true ∨ cur = src) →
    q.capacity = ri.NumRows * ri.NumCols →
    q.elems.length + unvisCount ri v ≤ ri.NumRows * ri.NumCols →
    (∀ x, v x = true → ∃ n, PChain pr src x n ∧ IsDist ri rc src x n) →
    (∀ x, v x = true → x ≠ src →
      edgeB ri rc (pr x) x = true ∧ (v (pr x) = true ∨ pr x = src)) →
    (∀ x, v x = true → x.Col < ri.NumCols ∧ x.Row < ri.NumRows) →
    (∀ y m, IsDist ri rc src y m → m ≤ k → v y = true ∨ y = src) →
    PNOut ri rc src dst wfuel cur k dirs v pr q
      (processNeighbors ri rc src dst wfuel cur dirs v pr q) := by
  intro dirs
  induction dirs with
  | nil =>
    intro _ v pr q hcm hqcap hlen hchain hparent hinb hbelow
    refine ⟨fun x hx => hx, fun x _ => rfl, rfl, le_refl _,
      ⟨[], (List.append_nil q.elems).symm, ?_, fun y hy => Or.inl hy⟩,
      hchain, hparent, hinb, ?_, ?_, fun _ _ => rfl⟩
    · intro y hy
      cases hy
    · intro _ y hy
      rw [edgeVia_nil] at hy
      cases hy
    · intro hf
      cases hf
  | cons d rest ih =>
    obtain ⟨dRow, dCol, port⟩ := d
    intro hdirs v pr q hcm hqcap hlen hchain hparent hinb hbelow
    have hdhead : (dRow, dCol, port) ∈ bfsDirs := hdirs _ (List.mem_cons_self _ _)
    have hdrest : ∀ x ∈ rest, x ∈ bfsDirs :=
      fun x hx => hdirs x (List.mem_cons_of_mem _ hx)
    rw [processNeighbors_cons]
    by_cases hvalid :
        isAdjTileValidForCurrTile ri rc cur (locAdd cur dCol dRow) port v = true
    · rw [if_pos hvalid]
      have hsplit := isAdjValid_split ri rc cur (locAdd cur dCol dRow) port v
      rw [hvalid] at hsplit
      have hstat : isAdjTileValidForCurrTile ri rc cur (locAdd cur dCol dRow) port
          (fun _ => false) = true := by
        cases hs : isAdjTileValidForCurrTile ri rc cur (locAdd cur dCol dRow) port
            (fun _ => false)
        · rw [hs] at hsplit
          cases hsplit
        · rfl
      have hvadj : v (locAdd cur dCol dRow) = false := by
        cases hva : v (locAdd cur dCol dRow)
        · rfl
        · rw [hstat, hva] at hsplit
          cases hsplit
      have hb := isAdjValid_bounds ri rc cur (locAdd cur dCol dRow) port _ hstat
      have hedge : edgeB ri rc cur (locAdd cur dCol dRow) = true :=
        (edgeVia_iff ri rc bfsDirs cur (locAdd cur dCol dRow)).mpr
          ⟨(dRow, dCol, port), hdhead, rfl, hstat⟩
      obtain ⟨hdadj, hchain2, hparent2, hinb2⟩ :=
        markStep ri rc src cur (locAdd cur dCol dRow) k v pr hcur hcm hchain
          hparent hinb hbelow hvadj hb hedge
      have hmadj : markV v (locAdd cur dCol dRow) (locAdd cur dCol dRow) = true := by
        simp [markV]
      have hmono1 : ∀ x, v x = true → markV v (locAdd cur dCol dRow) x = true := by
        intro x hx
        simp only [markV]
        split
        · rfl
        · exact hx
      have hmark := unvisCount_mark ri v (locAdd cur dCol dRow) hvadj hb
      have hmark2 : unvisCount ri (markV v (locAdd cur dCol dRow)) + 1 ≤
          unvisCount ri v := hmark
      have hlenne : q.elems.length ≠ q.capacity := by
        have hpos : 0 < unvisCount ri v := by
          apply Finset.card_pos.mpr
        -- the unvisited in-bounds tile adj witnesses positivity
          exact ⟨locAdd cur dCol dRow, by
            rw [Finset.mem_filter]
            exact ⟨(mem_gridFinset ri _).mpr hb, hvadj⟩⟩
        rw [hqcap]
        omega
      have henq : enqueue q (locAdd cur dCol dRow) =
          ⟨q.capacity, q.elems ++ [locAdd cur dCol dRow]⟩ :=
        enqueue_no_drop q (locAdd cur dCol dRow) hlenne
      have hqlen : (enqueue q (locAdd cur dCol dRow)).elems.length =
          q.elems.length + 1 := by
        rw [henq]
        simp
      have hqelems : (enqueue q (locAdd cur dCol dRow)).elems =
          q.elems ++ [locAdd cur dCol dRow] := by
        rw [henq]
      have hqcapeq : (enqueue q (locAdd cur dCol dRow)).capacity = q.capacity := by
        rw [henq]
      have hcm2 : markV v (locAdd cur dCol dRow) cur = true ∨ cur = src := by
        rcases hcm with hv | hs
        · exact Or.inl (hmono1 cur hv)
        · exact Or.inr hs
      have hqcap2 : (enqueue q (locAdd cur dCol dRow)).capacity =
          ri.NumRows * ri.NumCols := by
        rw [henq]
        exact hqcap
      have hlen2 : (enqueue q (locAdd cur dCol dRow)).elems.length +
          unvisCount ri (markV v (locAdd cur dCol dRow)) ≤
          ri.NumRows * ri.NumCols := by
        rw [henq]
        simp only [List.length_append, List.length_cons, List.length_nil]
        omega
      have hbelow2 : ∀ y m, IsDist ri rc src y m → m ≤ k →
          markV v (locAdd cur dCol dRow) y = true ∨ y = src := by
        intro y m hd hm
        rcases hbelow y m hd hm with h | h
        · exact Or.inl (hmono1 y h)
        · exact Or.inr h
      by_cases hdst : locAdd cur dCol dRow = dst
      · rw [if_pos hdst]
        by_cases hwl : discoveryWhitelisted rc (markP pr (locAdd cur dCol dRow) cur)
            src (locAdd cur dCol dRow) wfuel = true
        · rw [if_pos hwl]
          refine ⟨fun x hx => hmono1 x hx, ?_, ?_, ?_, ?_,
            hchain2, hparent2, hinb2, ?_, ?_, ?_⟩
          · intro x hx
            have hxa : x ≠ locAdd cur dCol dRow := by
              intro he
              rw [he, hvadj] at hx
              cases hx
            simp only [markP]
            rw [if_neg hxa]
          · rw [henq]
          · rw [henq]
            simp only [List.length_append, List.length_cons, List.length_nil]
            omega
          · refine ⟨[locAdd cur dCol dRow], by rw [henq], ?_, ?_⟩
            · intro y hy
              rcases List.mem_singleton.mp hy with rfl
              exact ⟨hmadj, hdadj⟩
            · intro y hy
              simp only [markV] at hy
              by_cases hya : y = locAdd cur dCol dRow
              · exact Or.inr (by rw [hya]; exact List.mem_singleton.mpr rfl)
              · rw [if_neg hya] at hy
                exact Or.inl hy
          · intro hf
            cases hf
          · intro _
            rw [← hdst]
            exact ⟨hmadj, hwl⟩
          · intro _ hf
            cases hf
        · rw [if_neg hwl]
          have out := ih hdrest (markV v (locAdd cur dCol dRow))
            (markP pr (locAdd cur dCol dRow) cur) (enqueue q (locAdd cur dCol dRow))
            hcm2 hqcap2 hlen2 hchain2 hparent2 hinb2 hbelow2
          refine ⟨fun x hx => out.mono x (hmono1 x hx), ?_, ?_, ?_, ?_,
            out.chain, out.parent, out.inb, ?_, out.found, ?_⟩
          · intro x hx
            have hxa : x ≠ locAdd cur dCol dRow := by
              intro he
              rw [he, hvadj] at hx
              cases hx
            rw [out.stable x (hmono1 x hx)]
            simp only [markP]
            rw [if_neg hxa]
          · rw [out.cap, henq]
          · have hms := out.meas
            rw [hqlen] at hms
            omega
          · obtain ⟨ap, hap, hmem, hnew⟩ := out.app
            rw [hqelems] at hap
            refine ⟨locAdd cur dCol dRow :: ap, by
              rw [hap]
              simp [List.append_assoc], ?_, ?_⟩
            · intro y hy
              rcases List.mem_cons.mp hy with rfl | hy2
              · exact ⟨out.mono _ hmadj, hdadj⟩
              · exact hmem y hy2
            · intro y hy
              rcases hnew y hy with h | h
              · simp only [markV] at h
                by_cases hya : y = locAdd cur dCol dRow
                · exact Or.inr (by rw [hya]; exact List.mem_cons_self _ _)
                · rw [if_neg hya] at h
                  exact Or.inl h
              · exact Or.inr (List.mem_cons_of_mem _ h)
          · intro hf y hy
            rcases edgeVia_cons_elim ri rc (dRow, dCol, port) rest cur y hy with
              ⟨rfl, _⟩ | h2
            · exact Or.inl (out.mono _ hmadj)
            · exact out.expand hf y h2
          · intro hwlf _
            exact absurd (discoveryWhitelisted_of_empty rc hwlf
              (markP pr (locAdd cur dCol dRow) cur) src (locAdd cur dCol dRow) wfuel) hwl
      · rw [if_neg hdst]
        have out := ih hdrest (markV v (locAdd cur dCol dRow))
          (markP pr (locAdd cur dCol dRow) cur) (enqueue q (locAdd cur dCol dRow))
          hcm2 hqcap2 hlen2 hchain2 hparent2 hinb2 hbelow2
        refine ⟨fun x hx => out.mono x (hmono1 x hx), ?_, ?_, ?_, ?_,
          out.chain, out.parent, out.inb, ?_, out.found, ?_⟩
        · intro x hx
          have hxa : x ≠ locAdd cur dCol dRow := by
            intro he
            rw [he, hvadj] at hx
            cases hx
          rw [out.stable x (hmono1 x hx)]
          simp only [markP]
          rw [if_neg hxa]
        · rw [out.cap, henq]
        · have hms := out.meas
          rw [hqlen] at hms
          omega
        · obtain ⟨ap, hap, hmem, hnew⟩ := out.app
          rw [hqelems] at hap
          refine ⟨locAdd cur dCol dRow :: ap, by
            rw [hap]
            simp [List.append_assoc], ?_, ?_⟩
          · intro y hy
            rcases List.mem_cons.mp hy with rfl | hy2
            · exact ⟨out.mono _ hmadj, hdadj⟩
            · exact hmem y hy2
          · intro y hy
            rcases hnew y hy with h | h
            · simp only [markV] at h
              by_cases hya : y = locAdd cur dCol dRow
              · exact Or.inr (by rw [hya]; exact List.mem_cons_self _ _)
              · rw [if_neg hya] at h
                exact Or.inl h
            · exact Or.inr (List.mem_cons_of_mem _ h)
        · intro hf y hy
          rcases edgeVia_cons_elim ri rc (dRow, dCol, port) rest cur y hy with
            ⟨rfl, _⟩ | h2
          · exact Or.inl (out.mono _ hmadj)
          · exact out.expand hf y h2
        · intro hwlf hf
          rw [out.nodst hwlf hf]
          simp only [markV]
          rw [if_neg (fun he => hdst he.symm)]
      -- invalid-neighbour branch
    · rw [if_neg hvalid]
      have out := ih hdrest v pr q hcm hqcap hlen hchain hparent hinb hbelow
      refine ⟨out.mono, out.stable, out.cap, out.meas, out.app,
        out.chain, out.parent, out.inb, ?_, out.found, out.nodst⟩
      intro hf y hy
      rcases edgeVia_cons_elim ri rc (dRow, dCol, port) rest cur y hy with
        ⟨rfl, hstat⟩ | h2
      · have hvF : isAdjTileValidForCurrTile ri rc cur (locAdd cur dCol dRow) port v
            = false := by
          cases hs : isAdjTileValidForCurrTile ri rc cur (locAdd cur dCol dRow) port v
          · rfl
          · exact absurd hs hvalid
        rw [isAdjValid_split, hstat] at hvF
        have hvT : v (locAdd cur dCol dRow) = true := by
          cases hva : v (locAdd cur dCol dRow)
          · rw [hva] at hvF
            cases hvF
          · rfl
        exact Or.inl (out.mono _ hvT)
      · exact out.expand hf y h2

/-! ## C4: the BFS loop -/

/-- When every queued tile already sits at level `k + 1` (or is the
re-enqueued source), the invariant shifts to level `k + 1`. -/
theorem bfsInv_shift (ri : RoutingInstance) (rc : Option RouteConstraints)
    (src : Loc) (k : Nat) (q : Queue) (v : Loc → Bool) (pr : Loc → Loc)
    (inv : BfsInv ri rc src k q v pr)
    (hall : ∀ x ∈ q.elems, IsDist ri rc src x (k + 1) ∨ x = src) :
    BfsInv ri rc src (k + 1) q v pr := by
  refine ⟨inv.qcap, inv.qlen, inv.qmem, inv.chain, inv.parent, inv.inb,
    inv.srcExp, inv.expand,
    ⟨q.elems, [], (List.append_nil q.elems).symm, hall, fun x hx => absurd hx
      (List.not_mem_nil x)⟩, ?_⟩
  intro y m hd hm
  rcases Nat.lt_or_ge m (k + 1) with h | h
  · exact inv.below y m hd (by omega)
  · have hm1 : m = k + 1 := by omega
    subst hm1
    obtain ⟨u, hu, hedge⟩ := isDist_succ_parent ri rc src y k hd
    rcases inv.below u k hu (le_refl k) with hv | hs
    · by_cases huq : u ∈ q.elems
      · rcases hall u huq with hd1 | hs1
        · have := isDist_unique ri rc src u k (k + 1) hu hd1
          omega
        · rw [hs1] at hedge
          exact inv.srcExp y hedge
      · exact inv.expand u (Or.inl hv) huq y hedge
    · rw [hs] at hedge
      exact inv.srcExp y hedge

/-- With an empty queue, the visited set (plus the source) is closed
under the edge relation, hence contains every reachable tile. -/
theorem bfsInv_closed (ri : RoutingInstance) (rc : Option RouteConstraints)
    (src : Loc) (k : Nat) (q : Queue) (v : Loc → Bool) (pr : Loc → Loc)
    (inv : BfsInv ri rc src k q v pr) (hq : q.elems = []) :
    ∀ (m : Nat) (y : Loc), stepsTo ri rc src m y → v y = true ∨ y = src := by
  intro m
  induction m with
  | zero =>
    intro y h
    exact Or.inr (stepsTo_src_zero ri rc src y h)
  | succ m ihm =>
    rintro y ⟨u, hu, hedge⟩
    rcases ihm u hu with hv | hs
    · exact inv.expand u (Or.inl hv) (by rw [hq]; exact List.not_mem_nil u) y hedge
    · rw [hs] at hedge
      exact inv.srcExp y hedge

theorem bfsLoop_cons (ri : RoutingInstance) (rc : Option RouteConstraints)
    (src dst : Loc) (wfuel fuel : Nat) (cap : Nat) (cur : Loc) (restQ : List Loc)
    (v : Loc → Bool) (pr : Loc → Loc) :
    bfsLoop ri rc src dst wfuel (fuel + 1) ⟨cap, cur :: restQ⟩ v pr =
      (if (processNeighbors ri rc src dst wfuel cur bfsDirs v pr ⟨cap, restQ⟩).2.2.2 then
        some (processNeighbors ri rc src dst wfuel cur bfsDirs v pr ⟨cap, restQ⟩).2.1
      else bfsLoop ri rc src dst wfuel fuel
        (processNeighbors ri rc src dst wfuel cur bfsDirs v pr ⟨cap, restQ⟩).2.2.1
        (processNeighbors ri rc src dst wfuel cur bfsDirs v pr ⟨cap, restQ⟩).1
        (processNeighbors ri rc src dst wfuel cur bfsDirs v pr ⟨cap, restQ⟩).2.1) := rfl

theorem bfsLoop_two (ri : RoutingInstance) (rc : Option RouteConstraints)
    (src dst : Loc) (wfuel m : Nat) (cap : Nat) (cur : Loc)
    (v : Loc → Bool) (pr : Loc → Loc) :
    bfsLoop ri rc src dst wfuel (m + 2) ⟨cap, [cur]⟩ v pr =
      (if (processNeighbors ri rc src dst wfuel cur bfsDirs v pr ⟨cap, []⟩).2.2.2 then
        some (processNeighbors ri rc src dst wfuel cur bfsDirs v pr ⟨cap, []⟩).2.1
      else bfsLoop ri rc src dst wfuel (m + 1)
        (processNeighbors ri rc src dst wfuel cur bfsDirs v pr ⟨cap, []⟩).2.2.1
        (processNeighbors ri rc src dst wfuel cur bfsDirs v pr ⟨cap, []⟩).1
        (processNeighbors ri rc src dst wfuel cur bfsDirs v pr ⟨cap, []⟩).2.1) := rfl

/-- The BFS loop under its invariant: whatever pred map it returns leads
to the destination along a parent chain of exact-BFS-distance length and
passed the whitelist check (soundness), and in whitelist-free mode with
the destination reachable and not yet visited, enough fuel forces an
answer (completeness). -/
theorem bfsLoop_spec (ri : RoutingInstance) (rc : Option RouteConstraints)
    (src dst : Loc) (wfuel : Nat) (hne : dst ≠ src) :
    ∀ (fuel k : Nat) (q : Queue) (v : Loc → Bool) (pr : Loc → Loc),
    BfsInv ri rc src k q v pr →
    ((∀ pred, bfsLoop ri rc src dst wfuel fuel q v pr = some pred →
      ∃ (vf : Loc → Bool) (n : Nat), vf dst = true ∧
        PChain pred src dst n ∧ IsDist ri rc src dst n ∧
        (∀ x, vf x = true → x ≠ src →
          edgeB ri rc (pred x) x = true ∧ (vf (pred x) = true ∨ pred x = src)) ∧
        (∀ x, vf x = true → x.Col < ri.NumCols ∧ x.Row < ri.NumRows) ∧
        discoveryWhitelisted rc pred src dst wfuel = true) ∧
     ((∀ c, rc = some c → c.WhiteListedCores = []) → v dst = false →
      (∃ n, IsDist ri rc src dst n) →
      q.elems.length + 2 * unvisCount ri v ≤ fuel →
      (bfsLoop ri rc src dst wfuel fuel q v pr).isSome = true)) := by
  intro fuel
  induction fuel with
  | zero =>
    intro k q v pr inv
    constructor
    · intro pred hpred
      rw [show bfsLoop ri rc src dst wfuel 0 q v pr = none from rfl] at hpred
      cases hpred
    · intro _ hdf hex hmes
      exfalso
      have hq : q.elems = [] := by
        have := List.length_eq_zero.mp (by omega : q.elems.length = 0)
        exact this
      obtain ⟨n, hd⟩ := hex
      rcases bfsInv_closed ri rc src k q v pr inv hq n dst hd.1 with hv | hs
      · rw [hdf] at hv
        cases hv
      · exact hne hs
  | succ fuel ih =>
    intro k q v pr inv
    obtain ⟨cap, qe⟩ := q
    cases qe with
    | nil =>
      constructor
      · intro pred hpred
        rw [show bfsLoop ri rc src dst wfuel (fuel + 1) ⟨cap, []⟩ v pr = none
          from rfl] at hpred
        cases hpred
      · intro _ hdf hex _
        exfalso
        obtain ⟨n, hd⟩ := hex
        rcases bfsInv_closed ri rc src k ⟨cap, []⟩ v pr inv rfl n dst hd.1 with hv | hs
        · rw [hdf] at hv
          cases hv
        · exact hne hs
    | cons cur restQ =>
      obtain ⟨a, b, hsplit, ha, hb⟩ := inv.levels
      have hnorm : ∃ k2 a2 b2, BfsInv ri rc src k2 ⟨cap, cur :: restQ⟩ v pr ∧
          cur :: restQ = a2 ++ b2 ∧ (∀ x ∈ a2, IsDist ri rc src x k2 ∨ x = src) ∧
          (∀ x ∈ b2, IsDist ri rc src x (k2 + 1) ∨ x = src) ∧ a2 ≠ [] := by
        rcases a with _ | ⟨c0, a1⟩
        · have hall : ∀ x ∈ (⟨cap, cur :: restQ⟩ : Queue).elems,
              IsDist ri rc src x (k + 1) ∨ x = src := by
            intro x hx
            refine hb x ?_
            have hx2 : x ∈ cur :: restQ := hx
            rw [show cur :: restQ = ([] : List Loc) ++ b from hsplit] at hx2
            simpa using hx2
          refine ⟨k + 1, cur :: restQ, [], bfsInv_shift ri rc src k _ v pr inv hall,
            (List.append_nil _).symm, hall, ?_, List.cons_ne_nil cur restQ⟩
          intro x hx
          exact absurd hx (List.not_mem_nil x)
        · exact ⟨k, c0 :: a1, b, inv, hsplit, ha, hb, List.cons_ne_nil c0 a1⟩
      obtain ⟨k2, a2, b2, inv2, hsplit2, ha2, hb2, hane⟩ := hnorm
      obtain ⟨c0, a3, rfl⟩ := List.exists_cons_of_ne_nil hane
      obtain ⟨hc0, hrest⟩ : c0 = cur ∧ restQ = a3 ++ b2 := by
        rw [List.cons_append] at hsplit2
        exact ⟨(List.cons.injEq _ _ _ _ ▸ hsplit2).1.symm,
          (List.cons.injEq _ _ _ _ ▸ hsplit2).2⟩
      have hcur : IsDist ri rc src cur k2 ∨ cur = src := by
        rw [← hc0]
        exact ha2 c0 (List.mem_cons_self _ _)
      have hcm : v cur = true ∨ cur = src :=
        inv2.qmem cur (List.mem_cons_self _ _)
      have hcapC : cap = ri.NumRows * ri.NumCols := inv2.qcap
      have hq1len : restQ.length + unvisCount ri v ≤ ri.NumRows * ri.NumCols := by
        have hql : (cur :: restQ).length + unvisCount ri v ≤
            ri.NumRows * ri.NumCols + 1 := inv2.qlen
        simp only [List.length_cons] at hql
        omega
      have out := processNeighbors_spec ri rc src dst wfuel cur k2 hcur bfsDirs
        (fun x hx => hx) v pr ⟨cap, restQ⟩ hcm hcapC hq1len inv2.chain inv2.parent
        inv2.inb inv2.below
      rw [bfsLoop_cons]
      by_cases hfound :
          (processNeighbors ri rc src dst wfuel cur bfsDirs v pr ⟨cap, restQ⟩).2.2.2 = true
      · rw [if_pos hfound]
        constructor
        · intro pred hpred
          obtain ⟨hdstT, hdisc⟩ := out.found hfound
          obtain ⟨n, hpch, hdist⟩ := out.chain dst hdstT
          cases hpred
          exact ⟨_, n, hdstT, hpch, hdist, out.parent, out.inb, hdisc⟩
        · intro _ _ _ _
          rfl
      · have hfF :
            (processNeighbors ri rc src dst wfuel cur bfsDirs v pr ⟨cap, restQ⟩).2.2.2
              = false := by
          cases hfb :
            (processNeighbors ri rc src dst wfuel cur bfsDirs v pr ⟨cap, restQ⟩).2.2.2
          · rfl
          · exact absurd hfb hfound
        rw [if_neg hfound]
        obtain ⟨ap, hap, hmem, hnew⟩ := out.app
        have hap2 :
            (processNeighbors ri rc src dst wfuel cur bfsDirs v pr
              ⟨cap, restQ⟩).2.2.1.elems = restQ ++ ap := hap
        have hcap2 :
            (processNeighbors ri rc src dst wfuel cur bfsDirs v pr
              ⟨cap, restQ⟩).2.2.1.capacity = cap := out.cap
        have hms :
            (processNeighbors ri rc src dst wfuel cur bfsDirs v pr
                ⟨cap, restQ⟩).2.2.1.elems.length +
              unvisCount ri
                (processNeighbors ri rc src dst wfuel cur bfsDirs v pr ⟨cap, restQ⟩).1 ≤
            restQ.length + unvisCount ri v := out.meas
        have hmono2 := unvisCount_mono ri v
          (processNeighbors ri rc src dst wfuel cur bfsDirs v pr ⟨cap, restQ⟩).1 out.mono
        have inv3 : BfsInv ri rc src k2
            (processNeighbors ri rc src dst wfuel cur bfsDirs v pr ⟨cap, restQ⟩).2.2.1
            (processNeighbors ri rc src dst wfuel cur bfsDirs v pr ⟨cap, restQ⟩).1
            (processNeighbors ri rc src dst wfuel cur bfsDirs v pr ⟨cap, restQ⟩).2.1 := by
          -- re-establish every invariant field after the scan
          refine ⟨by rw [hcap2]; exact hcapC, ?_,
              ?_, out.chain, out.parent, out.inb, ?_, ?_, ?_, ?_⟩
          · have hms2 := hms
            rw [hap2] at hms2
            simp only [List.length_append] at hms2
            rw [hap2]
            simp only [List.length_append]
            omega
          · intro x hx
            rw [hap2] at hx
            rcases List.mem_append.mp hx with h | h
            · rcases inv2.qmem x (List.mem_cons_of_mem cur h) with hv | hs
              · exact Or.inl (out.mono x hv)
              · exact Or.inr hs
            · exact Or.inl (hmem x h).1
          · intro y hy
            rcases inv2.srcExp y hy with hv | hs
            · exact Or.inl (out.mono y hv)
            · exact Or.inr hs
          · intro x hx hxq y hy
            rw [hap2] at hxq
            by_cases hxc : x = cur
            · rw [hxc] at hy
              exact out.expand hfF y hy
            · have hvx : v x = true ∨ x = src := by
                rcases hx with hv | hs
                · rcases hnew x hv with h | h
                  · exact Or.inl h
                  · exact absurd (List.mem_append.mpr (Or.inr h)) hxq
                · exact Or.inr hs
              have hxnq : x ∉ cur :: restQ := by
                intro hmem2
                rcases List.mem_cons.mp hmem2 with h | h
                · exact hxc h
                · exact hxq (List.mem_append.mpr (Or.inl h))
              rcases inv2.expand x hvx hxnq y hy with h | h
              · exact Or.inl (out.mono y h)
              · exact Or.inr h
          · refine ⟨a3, b2 ++ ap, by rw [hap2, hrest, List.append_assoc], ?_, ?_⟩
            · intro x hx
              exact ha2 x (List.mem_cons_of_mem c0 hx)
            · intro x hx
              rcases List.mem_append.mp hx with h | h
              · exact hb2 x h
              · exact (hmem x h).2
          · intro y m hd hm
            rcases inv2.below y m hd hm with hv | hs
            · exact Or.inl (out.mono y hv)
            · exact Or.inr hs
        obtain ⟨ihs, ihc⟩ := ih k2
          (processNeighbors ri rc src dst wfuel cur bfsDirs v pr ⟨cap, restQ⟩).2.2.1
          (processNeighbors ri rc src dst wfuel cur bfsDirs v pr ⟨cap, restQ⟩).1
          (processNeighbors ri rc src dst wfuel cur bfsDirs v pr ⟨cap, restQ⟩).2.1 inv3
        constructor
        · intro pred hpred
          exact ihs pred hpred
        · intro hwlf hdf hex hmes
          have hdf2 :
              (processNeighbors ri rc src dst wfuel cur bfsDirs v pr ⟨cap, restQ⟩).1 dst
                = false := by
            rw [out.nodst hwlf hfF]
            exact hdf
          refine ihc hwlf hdf2 hex ?_
          simp only [List.length_cons] at hmes
          have hms2 := hms
          rw [hap2] at hms2
          simp only [List.length_append] at hms2
          rw [hap2]
          simp only [List.length_append]
          omega

/-! ## C4: path reconstruction -/

/-- Walking the parent chain with enough fuel reconstructs an edge path
from the source, of length exactly the chain length, through visited
non-source tiles, without repetitions. -/
theorem predChain_spec (ri : RoutingInstance) (rc : Option RouteConstraints)
    (pr : Loc → Loc) (src : Loc) (v : Loc → Bool)
    (hparent : ∀ y, v y = true → y ≠ src →
      edgeB ri rc (pr y) y = true ∧ (v (pr y) = true ∨ pr y = src)) :
    ∀ (n : Nat) (x : Loc), PChain pr src x n → (v x = true ∨ x = src) →
    ∀ fuel, n ≤ fuel →
    ∃ l, predChain pr src x fuel = some l ∧ l.length = n ∧
      List.Chain' (fun a b => edgeB ri rc a b = true) (src :: l.reverse) ∧
      (src :: l.reverse).getLast? = some x ∧
      (∀ t ∈ l, v t = true ∧ t ≠ src ∧ ∃ m, m ≤ n ∧ PChain pr src t m) ∧
      l.Nodup := by
  intro n x hch
  induction hch with
  | base =>
    intro _ fuel _
    refine ⟨[], ?_, rfl, List.chain'_singleton src, rfl, ?_, List.nodup_nil⟩
    · unfold predChain
      rw [if_pos rfl]
    · intro t ht
      cases ht
  | step y n2 hyne hch2 ihc =>
    intro hvy fuel hfl
    have hvy2 : v y = true := by
      rcases hvy with h | h
      · exact h
      · exact absurd h hyne
    obtain ⟨hedge, hvp⟩ := hparent y hvy2 hyne
    cases fuel with
    | zero => omega
    | succ f =>
      obtain ⟨l2, hpc2, hlen2, hchain2, hlast2, hmem2, hnd2⟩ :=
        ihc hvp f (by omega)
      have hshape : (src :: (y :: l2).reverse) = (src :: l2.reverse) ++ [y] := by
        simp
      refine ⟨y :: l2, ?_, by simp [hlen2], ?_, ?_, ?_, ?_⟩
      · unfold predChain
        rw [if_neg hyne]
        show Option.map (fun q2 => y :: q2) (predChain pr src (pr y) f) = some (y :: l2)
        rw [hpc2]
        rfl
      · rw [hshape, List.chain'_append]
        refine ⟨hchain2, List.chain'_singleton y, ?_⟩
        intro a2 ha2 b2 hb2
        rw [hlast2] at ha2
        have ha3 : a2 = pr y := by
          cases ha2
          rfl
        have hb3 : b2 = y := by
          cases hb2
          rfl
        rw [ha3, hb3]
        exact hedge
      · rw [hshape]
        exact List.getLast?_concat _
      · intro t ht
        rcases List.mem_cons.mp ht with rfl | ht2
        · exact ⟨hvy2, hyne, n2 + 1, le_refl _, PChain.step t n2 hyne hch2⟩
        · obtain ⟨h1, h2, m, hm, h3⟩ := hmem2 t ht2
          exact ⟨h1, h2, m, by omega, h3⟩
      · rw [List.nodup_cons]
        refine ⟨?_, hnd2⟩
        intro hyin
        obtain ⟨_, _, m, hm, hpchy⟩ := hmem2 y hyin
        have := pchain_unique pr src y (n2 + 1) m (PChain.step y n2 hyne hch2) hpchy
        omega

/-- A duplicate-free list of in-bounds tiles is no longer than the
grid. -/
theorem nodup_loc_length_le (ri : RoutingInstance) (l : List Loc) (hnd : l.Nodup)
    (hmem : ∀ t ∈ l, t.Col < ri.NumCols ∧ t.Row < ri.NumRows) :
    l.length ≤ ri.NumRows * ri.NumCols := by
  have hsub : l.toFinset ⊆ gridFinset ri := by
    intro t ht
    exact (mem_gridFinset ri t).mpr (hmem t (List.mem_toFinset.mp ht))
  have hcard := Finset.card_le_card hsub
  rw [List.toFinset_card_of_nodup hnd, card_gridFinset] at hcard
  exact hcard

/-- Any edge path from the source witnesses reachability in exactly its
hop count. -/
theorem isPath_stepsTo (ri : RoutingInstance) (rc : Option RouteConstraints)
    (src : Loc) :
    ∀ (p : List Loc) (dst : Loc), IsPath ri rc src dst p →
      stepsTo ri rc src (p.length - 1) dst := by
  intro p
  induction p using List.reverseRecOn with
  | nil =>
    intro dst h
    cases h.1
  | append_singleton l a ihp =>
    intro dst h
    obtain ⟨hh, hl, hc⟩ := h
    have hadst : a = dst := by
      rw [List.getLast?_concat] at hl
      cases hl
      rfl
    rcases l with _ | ⟨x0, l0⟩
    · have hasrc : a = src := by
        simpa using hh
      have hL : (([] : List Loc) ++ [a]).length - 1 = 0 := rfl
      rw [hL]
      exact hadst ▸ hasrc
    · have hx0 : x0 = src := by
        rw [List.cons_append] at hh
        simpa using hh
      obtain ⟨hc1, _, hce⟩ := List.chain'_append.mp hc
      have hg : (x0 :: l0).getLast? =
          some ((x0 :: l0).getLast (List.cons_ne_nil x0 l0)) :=
        List.getLast?_eq_getLast _ _
      have hedge : edgeB ri rc ((x0 :: l0).getLast (List.cons_ne_nil x0 l0)) a
          = true := by
        refine hce _ ?_ a rfl
        rw [hg]
        rfl
      have hIsP : IsPath ri rc src ((x0 :: l0).getLast (List.cons_ne_nil x0 l0))
          (x0 :: l0) := by
        refine ⟨?_, hg, hc1⟩
        rw [hx0]
        rfl
      have hst := ihp _ hIsP
      have hLL : ((x0 :: l0) ++ [a]).length - 1 = ((x0 :: l0).length - 1) + 1 := by
        simp
      rw [hLL]
      exact ⟨_, hst, hadst ▸ hedge⟩

/-- The queue-plus-unvisited measure at the all-unvisited start. -/
theorem unvisCount_false (ri : RoutingInstance) :
    unvisCount ri (fun _ => false) = ri.NumRows * ri.NumCols := by
  unfold unvisCount
  rw [Finset.filter_true_of_mem fun x _ => rfl, card_gridFinset]

/-- Soundnessplus completeness of the BFS loop started from the
freshly initialized state: the first iteration dequeues the source and
establishes the invariant for `bfsLoop_spec`. -/
theorem bfsLoop_from_start (ri : RoutingInstance) (rc : Option RouteConstraints)
    (src dst : Loc) (hne : dst ≠ src) :
    (∀ pred, bfsLoop ri rc src dst (ri.NumRows * ri.NumCols + 2)
        (2 * (ri.NumRows * ri.NumCols) + 2)
        ⟨ri.NumRows * ri.NumCols, [src]⟩ (fun _ => false) (fun _ => ⟨0, 0⟩)
        = some pred →
      ∃ (vf : Loc → Bool) (n : Nat), vf dst = true ∧
        PChain pred src dst n ∧ IsDist ri rc src dst n ∧
        (∀ x, vf x = true → x ≠ src →
          edgeB ri rc (pred x) x = true ∧ (vf (pred x) = true ∨ pred x = src)) ∧
        (∀ x, vf x = true → x.Col < ri.NumCols ∧ x.Row < ri.NumRows) ∧
        discoveryWhitelisted rc pred src dst (ri.NumRows * ri.NumCols + 2) = true) ∧
    ((∀ c, rc = some c → c.WhiteListedCores = []) →
      (∃ n, IsDist ri rc src dst n) →
      (bfsLoop ri rc src dst (ri.NumRows * ri.NumCols + 2)
        (2 * (ri.NumRows * ri.NumCols) + 2)
        ⟨ri.NumRows * ri.NumCols, [src]⟩ (fun _ => false)
        (fun _ => ⟨0, 0⟩)).isSome = true) := by
  have hunv0 := unvisCount_false ri
  have out := processNeighbors_spec ri rc src dst (ri.NumRows * ri.NumCols + 2)
    src 0 (Or.inr rfl) bfsDirs (fun x hx => hx) (fun _ => false) (fun _ => ⟨0, 0⟩)
    ⟨ri.NumRows * ri.NumCols, []⟩ (Or.inr rfl) rfl (by simp [hunv0])
    (fun x hx => nomatch hx) (fun x hx => nomatch hx) (fun x hx => nomatch hx)
    (fun y m hd hm => Or.inr (by
      have h0 : m = 0 := Nat.le_zero.mp hm
      rw [h0] at hd
      exact hd.1))
  rw [bfsLoop_two]
  by_cases hfound : (processNeighbors ri rc src dst (ri.NumRows * ri.NumCols + 2)
      src bfsDirs (fun _ => false) (fun _ => ⟨0, 0⟩)
      ⟨ri.NumRows * ri.NumCols, []⟩).2.2.2 = true
  · rw [if_pos hfound]
    constructor
    · intro pred hpred
      obtain ⟨hdstT, hdisc⟩ := out.found hfound
      obtain ⟨n, hpch, hdist⟩ := out.chain dst hdstT
      cases hpred
      exact ⟨_, n, hdstT, hpch, hdist, out.parent, out.inb, hdisc⟩
    · intro _ _
      rfl
  · have hfF : (processNeighbors ri rc src dst (ri.NumRows * ri.NumCols + 2)
        src bfsDirs (fun _ => false) (fun _ => ⟨0, 0⟩)
        ⟨ri.NumRows * ri.NumCols, []⟩).2.2.2 = false := by
      cases hfb : (processNeighbors ri rc src dst (ri.NumRows * ri.NumCols + 2)
          src bfsDirs (fun _ => false) (fun _ => ⟨0, 0⟩)
          ⟨ri.NumRows * ri.NumCols, []⟩).2.2.2
      · rfl
      · exact absurd hfb hfound
    rw [if_neg hfound]
    obtain ⟨ap, hap, hmem, hnew⟩ := out.app
    have hap2 : (processNeighbors ri rc src dst (ri.NumRows * ri.NumCols + 2)
        src bfsDirs (fun _ => false) (fun _ => ⟨0, 0⟩)
        ⟨ri.NumRows * ri.NumCols, []⟩).2.2.1.elems = ap := hap
    have hcap2 : (processNeighbors ri rc src dst (ri.NumRows * ri.NumCols + 2)
        src bfsDirs (fun _ => false) (fun _ => ⟨0, 0⟩)
        ⟨ri.NumRows * ri.NumCols, []⟩).2.2.1.capacity =
        ri.NumRows * ri.NumCols := out.cap
    have hms0 : (processNeighbors ri rc src dst (ri.NumRows * ri.NumCols + 2)
        src bfsDirs (fun _ => false) (fun _ => ⟨0, 0⟩)
        ⟨ri.NumRows * ri.NumCols, []⟩).2.2.1.elems.length +
        unvisCount ri (processNeighbors ri rc src dst (ri.NumRows * ri.NumCols + 2)
          src bfsDirs (fun _ => false) (fun _ => ⟨0, 0⟩)
          ⟨ri.NumRows * ri.NumCols, []⟩).1 ≤
        0 + unvisCount ri (fun _ => false) := out.meas
    have hmono2 := unvisCount_mono ri (fun _ => false)
      (processNeighbors ri rc src dst (ri.NumRows * ri.NumCols + 2)
        src bfsDirs (fun _ => false) (fun _ => ⟨0, 0⟩)
        ⟨ri.NumRows * ri.NumCols, []⟩).1 out.mono
    have inv3 : BfsInv ri rc src 0
        (processNeighbors ri rc src dst (ri.NumRows * ri.NumCols + 2)
          src bfsDirs (fun _ => false) (fun _ => ⟨0, 0⟩)
          ⟨ri.NumRows * ri.NumCols, []⟩).2.2.1
        (processNeighbors ri rc src dst (ri.NumRows * ri.NumCols + 2)
          src bfsDirs (fun _ => false) (fun _ => ⟨0, 0⟩)
          ⟨ri.NumRows * ri.NumCols, []⟩).1
        (processNeighbors ri rc src dst (ri.NumRows * ri.NumCols + 2)
          src bfsDirs (fun _ => false) (fun _ => ⟨0, 0⟩)
          ⟨ri.NumRows * ri.NumCols, []⟩).2.1 := by
      refine ⟨hcap2, ?_, ?_, out.chain, out.parent, out.inb, ?_, ?_, ?_, ?_⟩
      · rw [hunv0] at hms0
        omega
      · intro x hx
        rw [hap2] at hx
        exact Or.inl (hmem x hx).1
      · intro y hy
        exact out.expand hfF y hy
      · intro x hx hxq y hy
        rcases hx with hv | hs
        · rcases hnew x hv with h | h
          · exact nomatch h
          · rw [hap2] at hxq
            exact absurd h hxq
        · rw [hs] at hy
          exact out.expand hfF y hy
      · refine ⟨[], ap, by rw [hap2]; rfl, ?_, ?_⟩
        · intro x hx
          exact absurd hx (List.not_mem_nil x)
        · intro x hx
          exact (hmem x hx).2
      · intro y m hd hm
        refine Or.inr ?_
        have h0 : m = 0 := Nat.le_zero.mp hm
        rw [h0] at hd
        exact hd.1
    obtain ⟨ihs, ihc⟩ := bfsLoop_spec ri rc src dst (ri.NumRows * ri.NumCols + 2)
      hne (2 * (ri.NumRows * ri.NumCols) + 1) 0
      (processNeighbors ri rc src dst (ri.NumRows * ri.NumCols + 2)
        src bfsDirs (fun _ => false) (fun _ => ⟨0, 0⟩)
        ⟨ri.NumRows * ri.NumCols, []⟩).2.2.1
      (processNeighbors ri rc src dst (ri.NumRows * ri.NumCols + 2)
        src bfsDirs (fun _ => false) (fun _ => ⟨0, 0⟩)
        ⟨ri.NumRows * ri.NumCols, []⟩).1
      (processNeighbors ri rc src dst (ri.NumRows * ri.NumCols + 2)
        src bfsDirs (fun _ => false) (fun _ => ⟨0, 0⟩)
        ⟨ri.NumRows * ri.NumCols, []⟩).2.1 inv3
    constructor
    · intro pred hpred
      exact ihs pred hpred
    · intro hwlf hex
      refine ihc hwlf ?_ hex ?_
      · rw [out.nodst hwlf hfF]
      · rw [hap2]
        rw [hunv0] at hms0 hmono2
        rw [hap2] at hms0
        omega

/-- What `_XAie_findShortestPath` actually guarantees for distinct
endpoints: every returned path is a valid minimum-hop edge path whose
non-source tiles are never blacklisted and (under a non-empty whitelist)
always whitelisted, and the search succeeds whenever the destination is
reachable and no whitelist filtering is active. -/
theorem findShortestPath_main (ri : RoutingInstance) (rc : Option RouteConstraints)
    (src dst : Loc) (hne : src ≠ dst) :
    (∀ p, findShortestPath ri rc src dst = some p →
      IsPath ri rc src dst p ∧
      (∀ p2, IsPath ri rc src dst p2 → p.length ≤ p2.length) ∧
      (∀ t ∈ p, t ≠ src → isTileBlackListed t rc = false) ∧
      (∀ c, rc = some c → c.WhiteListedCores ≠ [] →
        ∀ t ∈ p, t ≠ src → isTileWhitelisted t c.WhiteListedCores = true)) ∧
    ((∀ c, rc = some c → c.WhiteListedCores = []) →
      (∃ p0, IsPath ri rc src dst p0) →
      (findShortestPath ri rc src dst).isSome = true) := by
  have hne2 : dst ≠ src := fun h => hne h.symm
  have hunfold : findShortestPath ri rc src dst =
      (match bfsLoop ri rc src dst (ri.NumRows * ri.NumCols + 2)
          (2 * (ri.NumRows * ri.NumCols) + 2)
          (enqueue ⟨ri.NumRows * ri.NumCols, []⟩ src) (fun _ => false)
          (fun _ => ⟨0, 0⟩) with
        | none => none
        | some pred => (predChain pred src dst (ri.NumRows * ri.NumCols + 2)).map
            fun l => src :: l.reverse) := by
    simp only [findShortestPath]
    rw [if_neg hne]
  by_cases hC : ri.NumRows * ri.NumCols = 0
  · have hblnone : bfsLoop ri rc src dst (ri.NumRows * ri.NumCols + 2)
        (2 * (ri.NumRows * ri.NumCols) + 2)
        (enqueue ⟨ri.NumRows * ri.NumCols, []⟩ src) (fun _ => false)
        (fun _ => ⟨0, 0⟩) = none := by
      rw [hC]
      rfl
    constructor
    · intro p hp
      rw [hunfold, hblnone] at hp
      exact Option.noConfusion hp
    · intro hwlf hex
      exfalso
      obtain ⟨p0, hp0⟩ := hex
      have hst := isPath_stepsTo ri rc src p0 dst hp0
      cases hL : p0.length - 1 with
      | zero =>
        rw [hL] at hst
        exact hne2 hst
      | succ m =>
        rw [hL] at hst
        obtain ⟨u, _, hedge⟩ := hst
        have hb := edgeB_bounds ri rc u dst hedge
        have hpos : 0 < ri.NumRows * ri.NumCols :=
          Nat.mul_pos (by omega) (by omega)
        omega
  · have henq0 : enqueue (⟨ri.NumRows * ri.NumCols, []⟩ : Queue) src =
        ⟨ri.NumRows * ri.NumCols, [src]⟩ :=
      enqueue_no_drop _ _ (by show (0 : Nat) ≠ ri.NumRows * ri.NumCols; omega)
    obtain ⟨hsound, hcomp⟩ := bfsLoop_from_start ri rc src dst hne2
    cases hbl : bfsLoop ri rc src dst (ri.NumRows * ri.NumCols + 2)
        (2 * (ri.NumRows * ri.NumCols) + 2)
        (⟨ri.NumRows * ri.NumCols, [src]⟩ : Queue) (fun _ => false)
        (fun _ => ⟨0, 0⟩) with
    | none =>
      constructor
      · intro p hp
        rw [hunfold, henq0, hbl] at hp
        exact Option.noConfusion hp
      · intro hwlf hex
        exfalso
        obtain ⟨p0, hp0⟩ := hex
        have hst := isPath_stepsTo ri rc src p0 dst hp0
        obtain ⟨n0, hd0⟩ := exists_isDist ri rc src dst _ hst
        have hiss := hcomp hwlf ⟨n0, hd0⟩
        rw [hbl] at hiss
        cases hiss
    | some pred =>
      obtain ⟨vf, n, hvdst, hpch, hdist, hparent, hinb, hdisc⟩ := hsound pred hbl
      obtain ⟨l1, _, hlen1, _, _, hmem1, hnd1⟩ :=
        predChain_spec ri rc pred src vf hparent n dst hpch (Or.inl hvdst) n
          (le_refl n)
      have hnC : n ≤ ri.NumRows * ri.NumCols := by
        rw [← hlen1]
        exact nodup_loc_length_le ri l1 hnd1 fun t ht => hinb t (hmem1 t ht).1
      obtain ⟨l2, hpc2, hlen2, hchain2, hlast2, hmem2, hnd2⟩ :=
        predChain_spec ri rc pred src vf hparent n dst hpch (Or.inl hvdst)
          (ri.NumRows * ri.NumCols + 2) (by omega)
      have hfsp : findShortestPath ri rc src dst = some (src :: l2.reverse) := by
        rw [hunfold, henq0, hbl]
        show (predChain pred src dst (ri.NumRows * ri.NumCols + 2)).map
          (fun l => src :: l.reverse) = some (src :: l2.reverse)
        rw [hpc2]
        rfl
      constructor
      · intro p hp
        rw [hfsp] at hp
        cases hp
        refine ⟨⟨rfl, hlast2, hchain2⟩, ?_, ?_, ?_⟩
        · intro p2 hp2
          have hst2 := isPath_stepsTo ri rc src p2 dst hp2
          have hge := hdist.2 _ hst2
          have hp2pos : 1 ≤ p2.length := by
            rcases p2 with _ | ⟨h0, t0⟩
            · cases hp2.1
            · exact Nat.le_add_left 1 t0.length
          have hplen : (src :: l2.reverse).length = n + 1 := by
            simp [hlen2]
          rw [hplen]
          omega
        · intro t ht hts
          rcases List.mem_cons.mp ht with rfl | ht2
          · exact absurd rfl hts
          · obtain ⟨hvt, htne, _⟩ := hmem2 t (List.mem_reverse.mp ht2)
            exact edgeB_black ri rc (pred t) t (hparent t hvt htne).1
        · intro c hrc hwlne t ht hts
          have hdisc2 := hdisc
          rw [hrc] at hdisc2
          simp only [discoveryWhitelisted] at hdisc2
          have hemp : c.WhiteListedCores.isEmpty = false := by
            cases hwe : c.WhiteListedCores
            · exact absurd hwe hwlne
            · rfl
          rw [hemp] at hdisc2
          simp only [Bool.false_eq_true, if_false] at hdisc2
          rw [hpc2] at hdisc2
          have hall := List.all_eq_true.mp hdisc2
          rcases List.mem_cons.mp ht with rfl | ht2
          · exact absurd rfl hts
          · exact hall t (List.mem_reverse.mp ht2)
      · intro _ _
        rw [hfsp]
        rfl

/-- C4, counterexample: the claimed search property fails in three ways
on a fresh 3x3 grid.  (i) Completeness fails under a non-empty
whitelist: from (0,1) to (2,1) the detour through row 2 is a valid path
through whitelisted tiles only, yet the search returns `none` — the BFS
reaches (2,1) first through the non-whitelisted direct row, fails the
discovery whitelist check, and the visited mark on (2,1) blocks every
later discovery.  (ii) With whitelist {(1,1)} the search returns the
path [(0,1),(1,1)] although its endpoint (0,1), the source, is not
whitelisted, contradicting "every tile on the returned path (endpoints
included) is whitelisted".  (iii) With the source (0,1) blacklisted the
same path is returned, contradicting "no tile on the returned path is
blacklisted" — the source is never checked against either list. -/
theorem claim_C4_counterexample :
    (IsPath riE (some wlE1) ⟨0, 1⟩ ⟨2, 1⟩ detourE ∧
      (∀ t ∈ detourE, isTileWhitelisted t wlE1.WhiteListedCores = true) ∧
      findShortestPath riE (some wlE1) ⟨0, 1⟩ ⟨2, 1⟩ = none) ∧
    (findShortestPath riE (some wlE2) ⟨0, 1⟩ ⟨1, 1⟩ = some [⟨0, 1⟩, ⟨1, 1⟩] ∧
      isTileWhitelisted ⟨0, 1⟩ wlE2.WhiteListedCores = false) ∧
    (findShortestPath riE (some blE3) ⟨0, 1⟩ ⟨1, 1⟩ = some [⟨0, 1⟩, ⟨1, 1⟩] ∧
      isTileBlackListed ⟨0, 1⟩ (some blE3) = true) := by
  decide

/-- C4, amended: for distinct endpoints, if a constraint-respecting path
exists and no whitelist filtering is active (no constraints, or an empty
whitelist), the search succeeds; and every returned path is a valid
path in the BFS edge relation (which enforces bounds, port availability
and the blacklist on every non-source tile), has minimum hop count among
all such paths, contains no blacklisted tile other than possibly the
source, and — when a non-empty whitelist was supplied — every tile on it
other than possibly the source is whitelisted. -/
theorem claim_C4_amended (ri : RoutingInstance) (rc : Option RouteConstraints)
    (src dst : Loc) (hne : src ≠ dst) :
    ((∀ c, rc = some c → c.WhiteListedCores = []) →
      (∃ p0, IsPath ri rc src dst p0) →
      (findShortestPath ri rc src dst).isSome = true) ∧
    (∀ p, findShortestPath ri rc src dst = some p →
      IsPath ri rc src dst p ∧
      (∀ p2, IsPath ri rc src dst p2 → p.length ≤ p2.length) ∧
      (∀ t ∈ p, t ≠ src → isTileBlackListed t rc = false) ∧
      (∀ c, rc = some c → c.WhiteListedCores ≠ [] →
        ∀ t ∈ p, t ≠ src → isTileWhitelisted t c.WhiteListedCores = true)) := by
  obtain ⟨h1, h2⟩ := findShortestPath_main ri rc src dst hne
  exact ⟨h2, h1⟩

/-- Witness for the amended C4: on the 3x3 grid with no constraints the
search from (0,1) to the adjacent (1,1) succeeds. -/
theorem claim_C4_amended_witness :
    ((⟨0, 1⟩ : Loc) ≠ ⟨1, 1⟩) ∧
    (findShortestPath riE none ⟨0, 1⟩ ⟨1, 1⟩).isSome = true := by
  refine ⟨by decide, ?_⟩
  exact (claim_C4_amended riE none ⟨0, 1⟩ ⟨1, 1⟩ (by decide)).1
    (fun c hc => Option.noConfusion hc)
    ⟨[⟨0, 1⟩, ⟨1, 1⟩], by decide⟩

end AieRouting
